import Mathlib

/-
Verification of the Halpern-Pearl causal reasoning engine
(causal_explainer/halpern_pearl/causes.py).

Shallow embedding conventions:
* Variables and values are natural numbers (the source only needs equality
  and a total order on variable symbols).
* Python dicts become association lists (`Assignment`); lookups use
  `List.lookup`, which returns the first match, matching dict semantics
  for duplicate-free key lists.
* Structural equations receive the partial valuation through its lookup
  function `(Nat -> Option Nat)`, mirroring the opaque callables that
  receive a dict in the source.
* Code that can raise (KeyError, AssertionError, NetworkXUnfeasible)
  returns `Option`, with `none` for a raised exception.
-/

namespace HalpernPearl

abbrev Assignment : Type := List (Nat × Nat)

/-- Keys of an association list, in order. -/
def keysOf {β : Type} (l : List (Nat × β)) : List Nat := l.map Prod.fst

/-- Boolean set-equality of two key lists (Python `set(a) == set(b)`). -/
def setEq (a b : List Nat) : Bool := a.all b.contains && b.all a.contains

/-- Python dict equality: same key set and the same value at every key. -/
def dictEq (a b : Assignment) : Bool :=
  setEq (keysOf a) (keysOf b) && (keysOf a).all (fun k => a.lookup k == b.lookup k)

/-- Python `{**a, **b}` as far as lookups are concerned: `b` wins on clashes. -/
def dictUnion (a b : Assignment) : Assignment :=
  a.filter (fun p => !(keysOf b).contains p.1) ++ b

/-- The valuation of an assignment restricted to a set of keys
(the partial valuation of the parent variables, in the claim wording). -/
def restrictLookup (ks : List Nat) (m : Assignment) : Nat → Option Nat :=
  fun k => if ks.contains k then m.lookup k else none

/-- Modelled from the spec: `powerdict` from `causal_explainer.utils` (not under
`src/`) enumerates all sub-dictionaries of a dictionary, i.e. its restrictions
to subsets of its keys, the empty restriction first. -/
def powerdict (l : Assignment) : List Assignment := l.sublists

/-- Modelled from the spec: `powerset` from `causal_explainer.utils` (not under
`src/`) enumerates all subsets of a collection by ascending size. -/
def powersetAsc (l : List Nat) : List (List Nat) :=
  (List.range (l.length + 1)).flatMap (fun r => List.sublistsLen r l)

/-- Cartesian product of a list of finite domains, leftmost factor outermost,
matching the enumeration order of `itertools.product`. -/
def cartesianProduct : List (List Nat) → List (List Nat)
  | [] => [[]]
  | d :: ds => d.flatMap (fun x => (cartesianProduct ds).map (fun xs => x :: xs))

/-- Sequence a Python comprehension that can raise: `none` as soon as one
element raises. -/
def mapMO {α β : Type} (f : α → Option β) : List α → Option (List β)
  | [] => some []
  | a :: rest =>
    match f a, mapMO f rest with
    | some b, some bs => some (b :: bs)
    | _, _ => none

/-- Event trees over primitive assertions `V = v` (class `Event` and its
subclasses `PrimitiveEvent`, `Negation`, `Conjunction`, `Disjunction`). -/
inductive Event : Type where
  | prim (var : Nat) (value : Nat)
  | neg (child : Event)
  | conj (left_child right_child : Event)
  | disj (left_child right_child : Event)
deriving Repr

/-- `Event.variables`: the set of variables mentioned by an event. -/
def eventVariables : Event → List Nat
  | .prim v _ => [v]
  | .neg c => eventVariables c
  | .conj l r => eventVariables l ++ eventVariables r
  | .disj l r => eventVariables l ++ eventVariables r

/-- `Event.entailed_by` against a valuation (the setting's `values` dict).
A primitive event over a variable absent from the valuation raises KeyError
(`none`); `and`/`or` short-circuit exactly as Python `and`/`or` do. -/
def entailedBy : Event → Assignment → Option Bool
  | .prim v x, m => (m.lookup v).map (fun y => y == x)
  | .neg c, m => (entailedBy c m).map (fun b => !b)
  | .conj l r, m =>
    match entailedBy l m with
    | none => none
    | some false => some false
    | some true => entailedBy r m
  | .disj l r, m =>
    match entailedBy l m with
    | none => none
    | some true => some true
    | some false => entailedBy r m

/-- `assignments2conjunction`: a non-empty assignment becomes the
right-associated conjunction of its primitive events, in insertion order;
the empty assignment trips the `assert assignments` (hence `none`). -/
def assignments2conjunction : Assignment → Option Event
  | [] => none
  | [(k, v)] => some (.prim k v)
  | (k, v) :: p :: rest =>
    (assignments2conjunction (p :: rest)).map (fun f => .conj (.prim k v) f)

/-- A structural equation consumes the partial valuation (through its lookup
function) and produces a value. -/
abbrev StructuralEquation : Type := (Nat → Option Nat) → Nat

/-- `CausalNetwork`: a directed graph as an edge list plus the structural
equation table `F` and the override map `B` (`endogenous_bindings`). -/
structure CausalNetwork : Type where
  edges : List (Nat × Nat)
  structural_equations : List (Nat × StructuralEquation)
  endogenous_bindings : Assignment

/-- Insert a node if not already present (networkx keeps insertion order and
ignores repeats). -/
def insertNode (ns : List Nat) (v : Nat) : List Nat :=
  if ns.contains v then ns else ns ++ [v]

/-- Nodes of the graph, in insertion order: the endpoints of the edges
(`DiGraph.add_edge` is the only way the source adds nodes). -/
def nodesOf (es : List (Nat × Nat)) : List Nat :=
  es.foldl (fun ns p => insertNode (insertNode ns p.1) p.2) []

/-- Insert an edge if not already present (`DiGraph.add_edge` ignores repeats). -/
def insertEdge (es : List (Nat × Nat)) (e : Nat × Nat) : List (Nat × Nat) :=
  if es.contains e then es else es ++ [e]

/-- Replace the entry at a key, or append it (Python dict assignment). -/
def insertEntry {β : Type} (l : List (Nat × β)) (k : Nat) (x : β) : List (Nat × β) :=
  match l with
  | [] => [(k, x)]
  | (k', y) :: rest =>
    if k' == k then (k, x) :: rest else (k', y) :: insertEntry rest k x

/-- `CausalNetwork.add_dependency`: register edges `parent -> V` and record
`F[V] = f`.  The source performs no cycle check. -/
def add_dependency (N : CausalNetwork) (v : Nat) (parents : List Nat)
    (f : StructuralEquation) : CausalNetwork :=
  { edges := parents.foldl (fun es p => insertEdge es (p, v)) N.edges
    structural_equations := insertEntry N.structural_equations v f
    endogenous_bindings := N.endogenous_bindings }

/-- In-degree of a node. -/
def indeg (es : List (Nat × Nat)) (v : Nat) : Nat :=
  (es.filter (fun p => p.2 == v)).length

/-- The exogenous variables: the in-degree-0 nodes (`CausalNetwork.signature`). -/
def exogenousVariables (N : CausalNetwork) : List Nat :=
  (nodesOf N.edges).filter (fun v => indeg N.edges v == 0)

/-- The endogenous variables: the nodes of positive in-degree. -/
def endogenousVariables (N : CausalNetwork) : List Nat :=
  (nodesOf N.edges).filter (fun v => !(indeg N.edges v == 0))

/-- Predecessors of a node, in edge-insertion order. -/
def predsOf (N : CausalNetwork) (v : Nat) : List Nat :=
  (N.edges.filter (fun p => p.2 == v)).map Prod.fst

/-- Kahn's algorithm, fuelled by the node count; `none` when the graph is
cyclic (where `networkx.topological_sort` raises). -/
def kahnAux : Nat → List Nat → List (Nat × Nat) → Option (List Nat)
  | _, [], _ => some []
  | 0, _ :: _, _ => none
  | n + 1, ns@(_ :: _), es =>
    match ns.find? (fun v => !es.any (fun e => e.2 == v)) with
    | none => none
    | some v => (kahnAux n (ns.erase v) (es.filter (fun e => !(e.1 == v)))).map
        (fun rest => v :: rest)

/-- A topological order of the graph. -/
def topoSort (es : List (Nat × Nat)) : Option (List Nat) :=
  kahnAux (nodesOf es).length (nodesOf es) es

/-- `CausalNetwork.structural_equation`: the pinned value when the variable is
intervened, otherwise `F[V]` applied to the partial valuation so far
(`none` for the KeyError when `F` has no entry). -/
def structural_equation (N : CausalNetwork) (v : Nat) (values : Assignment) :
    Option Nat :=
  match N.endogenous_bindings.lookup v with
  | some b => some b
  | none =>
    match N.structural_equations.lookup v with
    | some f => some (f (fun k => values.lookup k))
    | none => none

/-- The loop body of `CausalNetwork.evaluate`: visit the variables in order,
skipping those already valued, and append the computed value. -/
def evalFold (N : CausalNetwork) : List Nat → Assignment → Option Assignment
  | [], values => some values
  | v :: rest, values =>
    if (values.lookup v).isSome then evalFold N rest values
    else
      match structural_equation N v values with
      | none => none
      | some x => evalFold N rest (values ++ [(v, x)])

/-- `CausalNetwork.evaluate`: forward pass over a topological order, returning
the derived values (everything not in the context). -/
def evaluate (N : CausalNetwork) (context : Assignment) : Option Assignment :=
  match topoSort N.edges with
  | none => none
  | some ord =>
    (evalFold N ord context).map
      (fun values => values.filter (fun p => !(keysOf context).contains p.1))

/-- `CausalNetwork.intervene`: a fresh network re-registering every endogenous
variable with its parents and equation, with `B` replaced wholesale by the
intervention (`none` for the KeyError when an endogenous variable has no
equation). -/
def intervene (N : CausalNetwork) (intervention : Assignment) :
    Option CausalNetwork :=
  (mapMO (fun v => (N.structural_equations.lookup v).map (fun f => (v, f)))
      (endogenousVariables N)).map
    (fun fTable =>
      { edges := (endogenousVariables N).flatMap
          (fun v => (predsOf N v).map (fun p => (p, v)))
        structural_equations := fTable
        endogenous_bindings := intervention })

/-- `CausalSetting`: network, context, domains, plus the materialized
`derived_values` and `values` computed by the constructor. -/
structure CausalSetting : Type where
  causal_network : CausalNetwork
  context : Assignment
  exogenous_domains : List (Nat × List Nat)
  endogenous_domains : List (Nat × List Nat)
  derived_values : Assignment
  values : Assignment

/-- `CausalSetting.__init__`: validate the signature, the exogenous values,
run `evaluate`, and validate the endogenous values, in the source's assert
order; `none` when any assert fires (or evaluation raises). -/
def mkSetting (N : CausalNetwork) (context : Assignment)
    (exDoms enDoms : List (Nat × List Nat)) : Option CausalSetting :=
  if setEq (exogenousVariables N) (keysOf context)
      && setEq (exogenousVariables N) (keysOf exDoms)
      && setEq (endogenousVariables N) (keysOf enDoms)
      && exDoms.all (fun p =>
           match context.lookup p.1 with
           | some v => p.2.contains v
           | none => false) then
    match evaluate N context with
    | none => none
    | some derived =>
      let values := dictUnion context derived
      if enDoms.all (fun p =>
           match values.lookup p.1 with
           | some v => p.2.contains v
           | none => false) then
        some ⟨N, context, exDoms, enDoms, derived, values⟩
      else none
  else none

/-- `Event.entailed_by(causal_setting)`: evaluation against `setting.values`. -/
def entails (e : Event) (S : CausalSetting) : Option Bool :=
  entailedBy e S.values

/-- `CausalFormula.entailed_by`: intervene, rebuild the setting under the
original context, evaluate the event. -/
def entailsFormula (intervention : Assignment) (e : Event) (S : CausalSetting) :
    Option Bool :=
  match intervene S.causal_network intervention with
  | none => none
  | some N' =>
    match mkSetting N' S.context S.exogenous_domains S.endogenous_domains with
    | none => none
    | some S' => entails e S'

/-- `satisfies_ac1` (AC1, factuality): the empty candidate is false; otherwise
both the candidate conjunction and the event must hold in the setting. -/
def satisfies_ac1 (candidate : Assignment) (e : Event) (S : CausalSetting) :
    Option Bool :=
  if candidate.isEmpty then some false
  else
    match assignments2conjunction candidate with
    | none => none
    | some conj =>
      match entails conj S with
      | none => none
      | some false => some false
      | some true => entails e S

/-- The sorted candidate variables (`sorted(x.keys())`). -/
def sortedKeys (l : Assignment) : List Nat :=
  List.insertionSort (fun a b => a ≤ b) (keysOf l)

/-- The interventions tried by `find_witnesses_ac2`, in generator order:
each alternative tuple drawn from `Dy[V]` minus the factual value, combined
with each sub-dictionary of the factual values of the non-candidate
endogenous variables; `none` when building `x`, `all_w` or the domain list
raises a KeyError. -/
def ac2WitnessSpace (candidate : Assignment) (S : CausalSetting) :
    Option (List Assignment) :=
  match mapMO (fun k => (S.values.lookup k).map (fun v => (k, v)))
      (keysOf candidate) with
  | none => none
  | some x =>
    match mapMO (fun k => (S.values.lookup k).map (fun v => (k, v)))
        ((keysOf S.endogenous_domains).filter
          (fun k => !(keysOf candidate).contains k)) with
    | none => none
    | some all_w =>
      match mapMO (fun k =>
          match S.endogenous_domains.lookup k, x.lookup k with
          | some d, some xv => some (d.filter (fun y => !(y == xv)))
          | _, _ => none) (sortedKeys candidate) with
      | none => none
      | some doms =>
        some ((cartesianProduct doms).flatMap
          (fun tup => (powerdict all_w).map
            (fun w => dictUnion ((sortedKeys candidate).zip tup) w)))

/-- Scan a list of candidate interventions for one making `¬e` hold
(the consumption of the `find_witnesses_ac2` generator by `satisfies_ac2`). -/
def scanWitnesses (e : Event) (S : CausalSetting) :
    List Assignment → Option Bool
  | [] => some false
  | itv :: rest =>
    match entailsFormula itv (.neg e) S with
    | none => none
    | some true => some true
    | some false => scanWitnesses e S rest

/-- `satisfies_ac2` (AC2): the empty candidate is false; otherwise true iff
the witness search yields at least one witness. -/
def satisfies_ac2 (candidate : Assignment) (e : Event) (S : CausalSetting) :
    Option Bool :=
  if candidate.isEmpty then some false
  else
    match ac2WitnessSpace candidate S with
    | none => none
    | some space => scanWitnesses e S space

/-- `is_weak_actual_cause`: AC1 and AC2. -/
def is_weak_actual_cause (candidate : Assignment) (e : Event)
    (S : CausalSetting) : Option Bool :=
  match satisfies_ac1 candidate e S with
  | none => none
  | some false => some false
  | some true => satisfies_ac2 candidate e S

/-- The loop of `satisfies_ac3` over the sub-dictionaries of the candidate. -/
def ac3Scan (candidate : Assignment) (e : Event) (S : CausalSetting) :
    List Assignment → Option Bool
  | [] => some true
  | sub :: rest =>
    if dictEq sub candidate then ac3Scan candidate e S rest
    else
      match is_weak_actual_cause sub e S with
      | none => none
      | some true => some false
      | some false => ac3Scan candidate e S rest

/-- `satisfies_ac3` (AC3, minimality): no other sub-dictionary of the
candidate is a weak actual cause. -/
def satisfies_ac3 (candidate : Assignment) (e : Event) (S : CausalSetting) :
    Option Bool :=
  ac3Scan candidate e S (powerdict candidate)

/-- `is_actual_cause`: a weak actual cause satisfying AC3. -/
def is_actual_cause (candidate : Assignment) (e : Event) (S : CausalSetting) :
    Option Bool :=
  match is_weak_actual_cause candidate e S with
  | none => none
  | some false => some false
  | some true => satisfies_ac3 candidate e S

/-- `satisfies_sc1` (SC1): like AC1 but with no empty-candidate guard, so the
empty candidate trips the assert inside `assignments2conjunction`. -/
def satisfies_sc1 (candidate : Assignment) (e : Event) (S : CausalSetting) :
    Option Bool :=
  match assignments2conjunction candidate with
  | none => none
  | some conj =>
    match entails conj S with
    | none => none
    | some false => some false
    | some true => entails e S

/-- `find_exact_assignments`: all assignments of the given variables drawn
from their domains, variables sorted; the empty variable set trips the
`assert variables`. -/
def find_exact_assignments (domains : List (Nat × List Nat))
    (vars : List Nat) : Option (List Assignment) :=
  if vars.isEmpty then none
  else
    match mapMO (fun v => domains.lookup v)
        (List.insertionSort (fun a b => a ≤ b) vars) with
    | none => none
    | some doms =>
      some ((cartesianProduct doms).map
        (fun tup => (List.insertionSort (fun a b => a ≤ b) vars).zip tup))

/-- `find_all_assignments`: every assignment of every non-empty subset of the
domain keys. -/
def find_all_assignments (domains : List (Nat × List Nat)) :
    Option (List Assignment) :=
  (mapMO (fun vs => find_exact_assignments domains vs)
      ((powersetAsc (keysOf domains)).filter (fun vs => !vs.isEmpty))).map
    List.flatten

/-- The loop of `satisfies_sc2` over the enumerated candidates: keep the
actual causes and test whether one shares a `V = v` pair with the candidate. -/
def sc2Scan (candidate : Assignment) (e : Event) (S : CausalSetting) :
    List Assignment → Option Bool
  | [] => some false
  | a :: rest =>
    match is_actual_cause a e S with
    | none => none
    | some false => sc2Scan candidate e S rest
    | some true =>
      if candidate.any (fun p => a.lookup p.1 == some p.2) then some true
      else sc2Scan candidate e S rest

/-- `satisfies_sc2` (SC2): some actual cause of `e` in `S` shares a conjunct
with the candidate. -/
def satisfies_sc2 (candidate : Assignment) (e : Event) (S : CausalSetting) :
    Option Bool :=
  match find_all_assignments S.endogenous_domains with
  | none => none
  | some cands => sc2Scan candidate e S cands

/-- One step of `satisfies_sc3`: rebuild the setting under the alternative
context and test the causal formula `[candidate] e` there. -/
def sc3Check (candidate : Assignment) (e : Event) (S : CausalSetting)
    (c' : Assignment) : Option Bool :=
  match mkSetting S.causal_network c' S.exogenous_domains S.endogenous_domains with
  | none => none
  | some S' => entailsFormula candidate e S'

/-- The loop of `satisfies_sc3` over the alternative contexts. -/
def sc3Scan (candidate : Assignment) (e : Event) (S : CausalSetting) :
    List Assignment → Option Bool
  | [] => some true
  | c' :: rest =>
    match sc3Check candidate e S c' with
    | none => none
    | some false => some false
    | some true => sc3Scan candidate e S rest

/-- `satisfies_sc3` (SC3, sufficiency across contexts): `[candidate] e` holds
under every total exogenous assignment. -/
def satisfies_sc3 (candidate : Assignment) (e : Event) (S : CausalSetting) :
    Option Bool :=
  match find_exact_assignments S.exogenous_domains (keysOf S.exogenous_domains) with
  | none => none
  | some contexts => sc3Scan candidate e S contexts

/-- `is_weak_sufficient_cause`: SC1, SC2 and SC3. -/
def is_weak_sufficient_cause (candidate : Assignment) (e : Event)
    (S : CausalSetting) : Option Bool :=
  match satisfies_sc1 candidate e S with
  | none => none
  | some false => some false
  | some true =>
    match satisfies_sc2 candidate e S with
    | none => none
    | some false => some false
    | some true => satisfies_sc3 candidate e S

/-- The loop of `satisfies_sc4` over the sub-dictionaries of the candidate
(which, unlike AC3, skips the empty sub-dictionary explicitly). -/
def sc4Scan (candidate : Assignment) (e : Event) (S : CausalSetting) :
    List Assignment → Option Bool
  | [] => some true
  | sub :: rest =>
    if !sub.isEmpty && !dictEq sub candidate then
      match is_weak_sufficient_cause sub e S with
      | none => none
      | some true => some false
      | some false => sc4Scan candidate e S rest
    else sc4Scan candidate e S rest

/-- `satisfies_sc4` (SC4, minimality). -/
def satisfies_sc4 (candidate : Assignment) (e : Event) (S : CausalSetting) :
    Option Bool :=
  sc4Scan candidate e S (powerdict candidate)

/-- `is_sufficient_cause`: a weak sufficient cause satisfying SC4. -/
def is_sufficient_cause (candidate : Assignment) (e : Event)
    (S : CausalSetting) : Option Bool :=
  match is_weak_sufficient_cause candidate e S with
  | none => none
  | some false => some false
  | some true => satisfies_sc4 candidate e S

/-! Specification-side definitions, used to state refinement claims. -/

/-- Modelled from the spec: the total exogenous assignments ranging over the
Cartesian product of the domains, variables sorted by symbol. -/
def allContexts (domains : List (Nat × List Nat)) : List Assignment :=
  (cartesianProduct
      ((List.insertionSort (fun a b => a ≤ b) (keysOf domains)).map
        (fun v => (domains.lookup v).getD []))).map
    (fun tup => (List.insertionSort (fun a b => a ≤ b) (keysOf domains)).zip tup)

/-- The side conditions on an AC2 witness pair, following the spec wording:
`xp` is an alternative assignment over exactly the candidate's variables whose
value at each variable lies in the endogenous domain minus the excluded value
(`excl.lookup`), and `K` is a set of endogenous variables outside the
candidate's domain. -/
def ac2WitnessSide (excl : Assignment) (candidate : Assignment)
    (xp : Assignment) (K : List Nat) (S : CausalSetting) : Bool :=
  setEq (keysOf xp) (keysOf candidate)
  && (keysOf xp).all (fun k =>
       match S.endogenous_domains.lookup k, xp.lookup k with
       | some d, some v => d.contains v && !(excl.lookup k == some v)
       | _, _ => false)
  && K.all (fun k =>
       (keysOf S.endogenous_domains).contains k
       && !(keysOf candidate).contains k)

/-- Strict precedence in a list: `u` occurs before `v`. -/
def listBefore (u v : Nat) (l : List Nat) : Prop := List.Sublist [u, v] l

/-- The signature of the network matches the keys of the context and of both
domain maps (the first three asserts of the setting constructor, in spec
wording). -/
def SignatureMatches (N : CausalNetwork) (c : Assignment)
    (dx dy : List (Nat × List Nat)) : Prop :=
  (∀ v, v ∈ exogenousVariables N ↔ v ∈ keysOf c) ∧
  (∀ v, v ∈ exogenousVariables N ↔ v ∈ keysOf dx) ∧
  (∀ v, v ∈ endogenousVariables N ↔ v ∈ keysOf dy)

/-- Every variable of the domain map has a value inside its declared domain. -/
def DomainsRespected (values : Assignment)
    (doms : List (Nat × List Nat)) : Prop :=
  ∀ p ∈ doms, ∃ v, values.lookup p.1 = some v ∧ v ∈ p.2

/-! Concrete networks and settings used by witnesses and counterexamples. -/

/-- A three-variable chain `1 -> 2 -> 3` whose second equation copies the
context and whose third maps `2 = 0` to `1` and anything else to `2`
(so that intervening on variable `2` drives variable `3` out of a domain
that only contains `1` and `3`). -/
def netA : CausalNetwork :=
  ⟨[(1, 2), (2, 3)],
   [(2, fun g => (g 1).getD 0),
    (3, fun g => if (g 2).getD 0 == 0 then 1 else 2)], []⟩

/-- The setting of `netA` under context `1 = 0`. -/
def setA : CausalSetting :=
  ⟨netA, [(1, 0)], [(1, [0, 1])], [(2, [0, 1]), (3, [1, 3])],
   [(2, 0), (3, 1)], [(1, 0), (2, 0), (3, 1)]⟩

/-- A two-variable network whose endogenous variable is constantly `1` over
the three-value domain `{0, 1, 2}`. -/
def netB : CausalNetwork := ⟨[(1, 2)], [(2, fun _ => 1)], []⟩

/-- The setting of `netB` under context `1 = 0` (factual value of `2` is `1`). -/
def setB : CausalSetting :=
  ⟨netB, [(1, 0)], [(1, [0])], [(2, [0, 1, 2])], [(2, 1)], [(1, 0), (2, 1)]⟩

/-- A fork `1 -> 2`, `1 -> 3` where both endogenous variables copy the
context. -/
def netC : CausalNetwork :=
  ⟨[(1, 2), (1, 3)],
   [(2, fun g => (g 1).getD 0), (3, fun g => (g 1).getD 0)], []⟩

/-- The network produced by intervening on `netC`: same graph and equations,
with the override map replaced by the given intervention. -/
def netCintv (b : Assignment) : CausalNetwork :=
  ⟨[(1, 2), (1, 3)],
   [(2, fun g => (g 1).getD 0), (3, fun g => (g 1).getD 0)], b⟩

/-- A fork `1 -> 2`, `1 -> 3` where the equation of `3` reads variable `2`,
which is not among its graph parents. -/
def netD : CausalNetwork :=
  ⟨[(1, 2), (1, 3)],
   [(2, fun _ => 1), (3, fun g => (g 2).getD 0)], []⟩

/-- A two-variable copy network over the singleton domain `{5}`. -/
def netE : CausalNetwork := ⟨[(1, 2)], [(2, fun g => (g 1).getD 0)], []⟩

/-- The setting of `netE` under context `1 = 5`. -/
def setE : CausalSetting :=
  ⟨netE, [(1, 5)], [(1, [5])], [(2, [5])], [(2, 5)], [(1, 5), (2, 5)]⟩

/-- Like `netE` but with an equation returning a value outside the declared
endogenous domain (the spec's domain-violation scenario). -/
def netE2 : CausalNetwork := ⟨[(1, 2)], [(2, fun _ => 2)], []⟩

/-- Two mutually dependent variables, as produced by two `add_dependency`
calls that close a cycle. -/
def cycleNet : CausalNetwork :=
  add_dependency (add_dependency ⟨[], [], []⟩ 2 [3] (fun _ => 0)) 3 [2]
    (fun _ => 0)

/-- The disjunctive forest-fire network: `1` exogenous, `2` and `3` copy the
context, `4` is their disjunction. -/
def fireNetwork : CausalNetwork :=
  ⟨[(1, 2), (1, 3), (2, 4), (3, 4)],
   [(2, fun g => (g 1).getD 0), (3, fun g => (g 1).getD 0),
    (4, fun g => if (g 2).getD 0 == 1 || (g 3).getD 0 == 1 then 1 else 0)], []⟩

/-- The forest-fire setting with both candidates at `1`. -/
def fireSetting : CausalSetting :=
  ⟨fireNetwork, [(1, 1)], [(1, [0, 1])],
   [(2, [0, 1]), (3, [0, 1]), (4, [0, 1])],
   [(2, 1), (3, 1), (4, 1)], [(1, 1), (2, 1), (3, 1), (4, 1)]⟩

/-! Association-list lemmas. -/

theorem lookup_cons_self {β : Type} (k : Nat) (v : β) (rest : List (Nat × β)) :
    ((k, v) :: rest).lookup k = some v := by
  simp [List.lookup_cons]

theorem lookup_cons_ne {β : Type} {k k' : Nat} (v : β) (rest : List (Nat × β))
    (h : k ≠ k') : ((k', v) :: rest).lookup k = rest.lookup k := by
  rw [List.lookup_cons]
  simp [show (k == k') = false by simpa using h]

theorem lookup_isSome_iff {β : Type} (l : List (Nat × β)) (k : Nat) :
    (l.lookup k).isSome ↔ k ∈ keysOf l := by
  induction l with
  | nil => simp [keysOf, List.lookup]
  | cons p rest ih =>
    obtain ⟨k', v⟩ := p
    by_cases h : k = k'
    · subst h
      simp [lookup_cons_self, keysOf]
    · rw [lookup_cons_ne v rest h, ih]
      simp [keysOf, h]

theorem lookup_eq_none_iff {β : Type} (l : List (Nat × β)) (k : Nat) :
    l.lookup k = none ↔ k ∉ keysOf l := by
  rw [← lookup_isSome_iff]
  cases l.lookup k <;> simp

theorem lookup_filter_key {β : Type} (l : List (Nat × β)) (p : Nat → Bool)
    (k : Nat) :
    (l.filter (fun q => p q.1)).lookup k =
      if p k then l.lookup k else none := by
  induction l with
  | nil => simp [List.lookup]
  | cons q rest ih =>
    obtain ⟨k', v⟩ := q
    by_cases h : k = k'
    · subst h
      by_cases hp : p k
      · rw [List.filter_cons_of_pos (by simpa using hp), lookup_cons_self,
          lookup_cons_self, if_pos hp]
      · rw [List.filter_cons_of_neg (by simpa using hp), ih,
          if_neg (by simpa using hp), if_neg (by simpa using hp)]
    · by_cases hp : p k'
      · rw [List.filter_cons_of_pos (by simpa using hp),
          lookup_cons_ne v _ h, lookup_cons_ne v rest h, ih]
      · rw [List.filter_cons_of_neg (by simpa using hp), ih,
          lookup_cons_ne v rest h]

theorem dictUnion_lookup (a b : Assignment) (k : Nat) :
    (dictUnion a b).lookup k =
      match b.lookup k with
      | some v => some v
      | none => a.lookup k := by
  unfold dictUnion
  rw [List.lookup_append,
    lookup_filter_key a (fun x => !(keysOf b).contains x) k]
  by_cases h : k ∈ keysOf b
  · have hb : (b.lookup k).isSome := (lookup_isSome_iff b k).2 h
    obtain ⟨v, hv⟩ := Option.isSome_iff_exists.1 hb
    simp [hv, h]
  · have hb : b.lookup k = none := (lookup_eq_none_iff b k).2 h
    simp [hb, h]

theorem lookup_map_graph (ks : List Nat) (g : Nat → Nat) (k : Nat) :
    (ks.map (fun x => (x, g x))).lookup k =
      if k ∈ ks then some (g k) else none := by
  induction ks with
  | nil => simp [List.lookup]
  | cons a rest ih =>
    by_cases h : k = a
    · subst h
      simp [List.map_cons, lookup_cons_self]
    · rw [List.map_cons, lookup_cons_ne _ _ h, ih]
      simp [h]

theorem zip_map_self (ks : List Nat) (g : Nat → Nat) :
    ks.zip (ks.map g) = ks.map (fun x => (x, g x)) := by
  induction ks with
  | nil => rfl
  | cons a rest ih => simp [List.zip_cons_cons, ih]

theorem mapMO_graph_eq (m : Assignment) :
    ∀ (ks : List Nat) (l : Assignment),
      mapMO (fun k => (m.lookup k).map (fun v => (k, v))) ks = some l →
      (∀ k ∈ ks, (m.lookup k).isSome) ∧
        l = ks.map (fun k => (k, (m.lookup k).getD 0)) := by
  intro ks
  induction ks with
  | nil =>
    intro l h
    cases h
    simp
  | cons a rest ih =>
    intro l h
    unfold mapMO at h
    cases hm : m.lookup a with
    | none => rw [hm] at h; simp at h
    | some v =>
      rw [hm] at h
      cases hrest : mapMO (fun k => (m.lookup k).map (fun v => (k, v))) rest with
      | none => rw [hrest] at h; simp at h
      | some lt =>
        rw [hrest] at h
        cases h
        obtain ⟨hall, hlt⟩ := ih lt hrest
        refine ⟨?_, ?_⟩
        · intro k hk
          rcases List.mem_cons.1 hk with rfl | hk
          · simp [hm]
          · exact hall k hk
        · rw [List.map_cons, ← hlt, hm]
          rfl

theorem mapMO_eq_some_forall2 {α β : Type} (f : α → Option β) :
    ∀ (l : List α) (r : List β),
      mapMO f l = some r → List.Forall₂ (fun a b => f a = some b) l r := by
  intro l
  induction l with
  | nil =>
    intro r h
    cases h
    exact List.Forall₂.nil
  | cons a rest ih =>
    intro r h
    unfold mapMO at h
    cases hf : f a with
    | none => rw [hf] at h; simp at h
    | some b =>
      rw [hf] at h
      cases hrest : mapMO f rest with
      | none => rw [hrest] at h; simp at h
      | some rt =>
        rw [hrest] at h
        cases h
        exact List.Forall₂.cons hf (ih rt hrest)

theorem mapMO_eq_some_of_forall2 {α β : Type} (f : α → Option β)
    (l : List α) (r : List β)
    (h : List.Forall₂ (fun a b => f a = some b) l r) : mapMO f l = some r := by
  induction h with
  | nil => rfl
  | cons hab _ ih =>
    unfold mapMO
    rw [hab, ih]

theorem cartesianProduct_mem :
    ∀ (ds : List (List Nat)) (xs : List Nat),
      xs ∈ cartesianProduct ds ↔ List.Forall₂ (fun x d => x ∈ d) xs ds := by
  intro ds
  induction ds with
  | nil =>
    intro xs
    constructor
    · intro h
      simp [cartesianProduct] at h
      simp [h]
    · intro h
      cases h
      simp [cartesianProduct]
  | cons d rest ih =>
    intro xs
    constructor
    · intro h
      simp only [cartesianProduct, List.mem_flatMap, List.mem_map] at h
      obtain ⟨x, hx, ys, hys, rfl⟩ := h
      exact List.Forall₂.cons hx ((ih ys).1 hys)
    · intro h
      cases h with
      | cons hx hrest =>
        simp only [cartesianProduct, List.mem_flatMap, List.mem_map]
        exact ⟨_, hx, _, (ih _).2 hrest, rfl⟩

theorem forall2_zip_lookup {P : Nat → Nat → Prop} :
    ∀ (ks vs : List Nat), List.Forall₂ P ks vs →
      ∀ k v, (ks.zip vs).lookup k = some v → P k v := by
  intro ks vs h
  induction h with
  | nil => intro k v h; simp [List.lookup] at h
  | @cons a b l1 l2 hab _ ih =>
    intro k v hkv
    rw [List.zip_cons_cons, List.lookup_cons] at hkv
    by_cases h : k = a
    · subst h
      simp only [beq_self_eq_true] at hkv
      cases hkv
      exact hab
    · simp only [show (k == a) = false by simpa using h] at hkv
      exact ih k v hkv

/-! Lemmas about `setEq` and `dictEq`. -/

theorem setEq_true_iff (a b : List Nat) :
    setEq a b = true ↔ ∀ k, k ∈ a ↔ k ∈ b := by
  unfold setEq
  rw [Bool.and_eq_true, List.all_eq_true, List.all_eq_true]
  constructor
  · rintro ⟨h1, h2⟩ k
    constructor
    · intro hk; simpa using h1 k hk
    · intro hk; simpa using h2 k hk
  · intro h
    constructor
    · intro k hk; simpa using (h k).1 hk
    · intro k hk; simpa using (h k).2 hk

theorem dictEq_refl (l : Assignment) : dictEq l l = true := by
  unfold dictEq
  rw [Bool.and_eq_true, List.all_eq_true]
  refine ⟨(setEq_true_iff _ _).2 (fun k => Iff.rfl), ?_⟩
  intro k _
  simp

theorem dictEq_nil_iff (l : Assignment) : dictEq [] l = true ↔ l = [] := by
  constructor
  · intro h
    unfold dictEq at h
    rw [Bool.and_eq_true] at h
    have := (setEq_true_iff _ _).1 h.1
    cases l with
    | nil => rfl
    | cons p rest =>
      have := (this p.1).2 (by simp [keysOf])
      simp [keysOf] at this
  · rintro rfl
    rfl

theorem sublist_eq_of_dictEq {sub cand : Assignment}
    (hs : List.Sublist sub cand) (hnd : (keysOf cand).Nodup)
    (hd : dictEq sub cand = true) : sub = cand := by
  have hkeys : List.Sublist (keysOf sub) (keysOf cand) := List.Sublist.map _ hs
  have hmem : ∀ k, k ∈ keysOf sub ↔ k ∈ keysOf cand := by
    unfold dictEq at hd
    rw [Bool.and_eq_true] at hd
    exact (setEq_true_iff _ _).1 hd.1
  have hsubnd : (keysOf sub).Nodup := List.Nodup.sublist hkeys hnd
  have hlen : (keysOf cand).length ≤ (keysOf sub).length :=
    (List.Nodup.subperm hnd (fun k hk => (hmem k).2 hk)).length_le
  have hlen2 : (keysOf sub).length = (keysOf cand).length :=
    Nat.le_antisymm hkeys.length_le hlen
  have : (keysOf sub).length = sub.length := by simp [keysOf]
  have : (keysOf cand).length = cand.length := by simp [keysOf]
  exact hs.eq_of_length (by
    have h1 : (keysOf sub).length = sub.length := by simp [keysOf]
    have h2 : (keysOf cand).length = cand.length := by simp [keysOf]
    omega)

/-! Lemmas about the node list and Kahn's algorithm. -/

theorem insertNode_mem (ns : List Nat) (u v : Nat) :
    v ∈ insertNode ns u ↔ v ∈ ns ∨ v = u := by
  unfold insertNode
  by_cases h : u ∈ ns
  · rw [if_pos (by simpa using h)]
    constructor
    · exact fun hv => Or.inl hv
    · rintro (hv | rfl)
      · exact hv
      · exact h
  · rw [if_neg (by simpa using h)]
    simp

theorem insertNode_nodup (ns : List Nat) (u : Nat) (h : ns.Nodup) :
    (insertNode ns u).Nodup := by
  unfold insertNode
  by_cases hu : u ∈ ns
  · rw [if_pos (by simpa using hu)]; exact h
  · rw [if_neg (by simpa using hu)]
    simp [List.nodup_append, h, hu]

theorem nodesOf_aux_nodup (es : List (Nat × Nat)) :
    ∀ acc : List Nat, acc.Nodup →
      (es.foldl (fun ns p => insertNode (insertNode ns p.1) p.2) acc).Nodup := by
  induction es with
  | nil => intro acc h; exact h
  | cons p rest ih =>
    intro acc h
    exact ih _ (insertNode_nodup _ _ (insertNode_nodup _ _ h))

theorem nodesOf_nodup (es : List (Nat × Nat)) : (nodesOf es).Nodup :=
  nodesOf_aux_nodup es [] List.nodup_nil

theorem nodesOf_aux_mem (es : List (Nat × Nat)) :
    ∀ (acc : List Nat) (v : Nat),
      v ∈ es.foldl (fun ns p => insertNode (insertNode ns p.1) p.2) acc ↔
        v ∈ acc ∨ ∃ p ∈ es, v = p.1 ∨ v = p.2 := by
  induction es with
  | nil => intro acc v; simp
  | cons p rest ih =>
    intro acc v
    rw [List.foldl_cons, ih, insertNode_mem, insertNode_mem]
    constructor
    · rintro (((hv | rfl) | rfl) | ⟨q, hq, hv⟩)
      · exact Or.inl hv
      · exact Or.inr ⟨p, List.mem_cons_self p rest, Or.inl rfl⟩
      · exact Or.inr ⟨p, List.mem_cons_self p rest, Or.inr rfl⟩
      · exact Or.inr ⟨q, List.mem_cons_of_mem p hq, hv⟩
    · rintro (hv | ⟨q, hq, hv⟩)
      · exact Or.inl (Or.inl (Or.inl hv))
      · rcases List.mem_cons.1 hq with rfl | hq
        · rcases hv with rfl | rfl
          · exact Or.inl (Or.inl (Or.inr rfl))
          · exact Or.inl (Or.inr rfl)
        · exact Or.inr ⟨q, hq, hv⟩

theorem nodesOf_mem (es : List (Nat × Nat)) (v : Nat) :
    v ∈ nodesOf es ↔ ∃ p ∈ es, v = p.1 ∨ v = p.2 := by
  unfold nodesOf
  rw [nodesOf_aux_mem]
  simp

theorem nodesOf_endpoints (es : List (Nat × Nat)) :
    ∀ p ∈ es, p.1 ∈ nodesOf es ∧ p.2 ∈ nodesOf es := by
  intro p hp
  exact ⟨(nodesOf_mem es p.1).2 ⟨p, hp, Or.inl rfl⟩,
    (nodesOf_mem es p.2).2 ⟨p, hp, Or.inr rfl⟩⟩

theorem kahnAux_nil (n : Nat) (es : List (Nat × Nat)) :
    kahnAux n [] es = some [] := by
  cases n <;> rfl

theorem kahnAux_succ_cons (n : Nat) (a : Nat) (t : List Nat)
    (es : List (Nat × Nat)) :
    kahnAux (n + 1) (a :: t) es =
      match (a :: t).find? (fun v => !es.any (fun e => e.2 == v)) with
      | none => none
      | some v =>
        (kahnAux n ((a :: t).erase v) (es.filter (fun e => !(e.1 == v)))).map
          (fun rest => v :: rest) := rfl

theorem kahnAux_perm :
    ∀ (n : Nat) (ns : List Nat) (es : List (Nat × Nat)) (ord : List Nat),
      kahnAux n ns es = some ord → ord.Perm ns := by
  intro n
  induction n with
  | zero =>
    intro ns es ord h
    cases ns with
    | nil => rw [kahnAux_nil] at h; cases h; rfl
    | cons a t => exact absurd h (by simp [kahnAux])
  | succ m ih =>
    intro ns es ord h
    cases ns with
    | nil => rw [kahnAux_nil] at h; cases h; rfl
    | cons a t =>
      rw [kahnAux_succ_cons] at h
      cases hf : (a :: t).find? (fun v => !es.any (fun e => e.2 == v)) with
      | none => rw [hf] at h; cases h
      | some v =>
        rw [hf] at h
        have h2 : (kahnAux m ((a :: t).erase v)
            (es.filter (fun e => !(e.1 == v)))).map
              (fun rest => v :: rest) = some ord := h
        cases hrec : kahnAux m ((a :: t).erase v)
            (es.filter (fun e => !(e.1 == v))) with
        | none => rw [hrec] at h2; cases h2
        | some ord' =>
          rw [hrec] at h2
          cases h2
          have hperm := ih _ _ _ hrec
          have hv : v ∈ a :: t := List.mem_of_find?_eq_some hf
          exact (hperm.cons v).trans (List.perm_cons_erase hv).symm

theorem kahnAux_before :
    ∀ (n : Nat) (ns : List Nat) (es : List (Nat × Nat)) (ord : List Nat),
      kahnAux n ns es = some ord →
      (∀ p ∈ es, p.1 ∈ ns ∧ p.2 ∈ ns) →
      ∀ a b, (a, b) ∈ es → listBefore a b ord := by
  intro n
  induction n with
  | zero =>
    intro ns es ord h hep a b hab
    cases ns with
    | nil => exact absurd (hep _ hab).1 (by simp)
    | cons x t => exact absurd h (by simp [kahnAux])
  | succ m ih =>
    intro ns es ord h hep a b hab
    cases ns with
    | nil => exact absurd (hep _ hab).1 (by simp)
    | cons x t =>
      rw [kahnAux_succ_cons] at h
      cases hf : (x :: t).find? (fun v => !es.any (fun e => e.2 == v)) with
      | none => rw [hf] at h; cases h
      | some v =>
        rw [hf] at h
        have h2 : (kahnAux m ((x :: t).erase v)
            (es.filter (fun e => !(e.1 == v)))).map
              (fun rest => v :: rest) = some ord := h
        cases hrec : kahnAux m ((x :: t).erase v)
            (es.filter (fun e => !(e.1 == v))) with
        | none => rw [hrec] at h2; cases h2
        | some ord' =>
          rw [hrec] at h2
          cases h2
          have hnoin : ∀ p ∈ es, p.2 ≠ v := by
            have hp := List.find?_some hf
            intro p hpmem hpv
            rw [Bool.not_eq_eq_eq_not, Bool.not_true, ← Bool.not_eq_true,
              List.any_eq_true] at hp
            exact hp ⟨p, hpmem, by simp [hpv]⟩
          have hbv : b ≠ v := hnoin (a, b) hab
          by_cases hav : a = v
          · subst hav
            have hb : b ∈ (x :: t).erase a :=
              (List.mem_erase_of_ne hbv).2 (hep _ hab).2
            have hb' : b ∈ ord' := (kahnAux_perm _ _ _ _ hrec).mem_iff.2 hb
            exact (List.singleton_sublist.2 hb').cons₂ a
          · have habf : (a, b) ∈ es.filter (fun e => !(e.1 == v)) :=
              List.mem_filter.2 ⟨hab, by simpa using hav⟩
            have hep' : ∀ p ∈ es.filter (fun e => !(e.1 == v)),
                p.1 ∈ (x :: t).erase v ∧ p.2 ∈ (x :: t).erase v := by
              intro p hpf
              have hpe := List.mem_of_mem_filter hpf
              have hp1v : p.1 ≠ v := by
                have := (List.mem_filter.1 hpf).2
                simpa using this
              exact ⟨(List.mem_erase_of_ne hp1v).2 (hep _ hpe).1,
                (List.mem_erase_of_ne (hnoin _ hpe)).2 (hep _ hpe).2⟩
            exact (ih _ _ _ hrec hep' a b habf).cons v

theorem topoSort_perm (es : List (Nat × Nat)) (ord : List Nat)
    (h : topoSort es = some ord) : ord.Perm (nodesOf es) :=
  kahnAux_perm _ _ _ _ h

theorem topoSort_nodup (es : List (Nat × Nat)) (ord : List Nat)
    (h : topoSort es = some ord) : ord.Nodup :=
  ((topoSort_perm es ord h).nodup_iff).2 (nodesOf_nodup es)

theorem topoSort_before (es : List (Nat × Nat)) (ord : List Nat)
    (h : topoSort es = some ord) (a b : Nat) (hab : (a, b) ∈ es) :
    listBefore a b ord :=
  kahnAux_before _ _ _ _ h (fun p hp => nodesOf_endpoints es p hp) a b hab

/-! Lemmas about the forward evaluation pass. -/

theorem evalFold_shape (N : CausalNetwork) :
    ∀ (ord : List Nat) (acc full : Assignment),
      evalFold N ord acc = some full →
      ∃ extra, full = acc ++ extra ∧
        ∀ p ∈ extra, p.1 ∈ ord ∧ acc.lookup p.1 = none := by
  intro ord
  induction ord with
  | nil =>
    intro acc full h
    cases h
    exact ⟨[], by simp, by simp⟩
  | cons v rest ih =>
    intro acc full h
    unfold evalFold at h
    by_cases hsk : (acc.lookup v).isSome
    · rw [if_pos hsk] at h
      obtain ⟨extra, rfl, hprops⟩ := ih acc full h
      exact ⟨extra, rfl, fun p hp =>
        ⟨List.mem_cons_of_mem v (hprops p hp).1, (hprops p hp).2⟩⟩
    · rw [if_neg hsk] at h
      cases hse : structural_equation N v acc with
      | none => rw [hse] at h; cases h
      | some x =>
        rw [hse] at h
        obtain ⟨extra, hfull, hprops⟩ := ih (acc ++ [(v, x)]) full h
        have haccv : acc.lookup v = none := by
          cases hl : acc.lookup v
          · rfl
          · rw [hl] at hsk; simp at hsk
        refine ⟨(v, x) :: extra, by simpa using hfull, ?_⟩
        intro p hp
        rcases List.mem_cons.1 hp with rfl | hp
        · exact ⟨List.mem_cons_self v rest, haccv⟩
        · have h1 := (hprops p hp).1
          have h2 := (hprops p hp).2
          rw [List.lookup_append] at h2
          refine ⟨List.mem_cons_of_mem v h1, ?_⟩
          cases hl : acc.lookup p.1
          · rfl
          · rw [hl] at h2; simp at h2

theorem evalFold_persists (N : CausalNetwork) (ord : List Nat)
    (acc full : Assignment) (h : evalFold N ord acc = some full) :
    ∀ k y, acc.lookup k = some y → full.lookup k = some y := by
  obtain ⟨extra, rfl, _⟩ := evalFold_shape N ord acc full h
  intro k y hk
  rw [List.lookup_append, hk]
  rfl

theorem evalFold_covers (N : CausalNetwork) :
    ∀ (ord : List Nat) (acc full : Assignment),
      evalFold N ord acc = some full →
      ∀ v ∈ ord, (full.lookup v).isSome := by
  intro ord
  induction ord with
  | nil => intro acc full _ v hv; cases hv
  | cons u rest ih =>
    intro acc full h v hv
    unfold evalFold at h
    by_cases hsk : (acc.lookup u).isSome
    · rw [if_pos hsk] at h
      rcases List.mem_cons.1 hv with rfl | hv
      · obtain ⟨y, hy⟩ := Option.isSome_iff_exists.1 hsk
        rw [evalFold_persists N rest acc full h v y hy]
        rfl
      · exact ih acc full h v hv
    · rw [if_neg hsk] at h
      cases hse : structural_equation N u acc with
      | none => rw [hse] at h; cases h
      | some x =>
        rw [hse] at h
        rcases List.mem_cons.1 hv with rfl | hv
        · have : (acc ++ [(v, x)]).lookup v = some x := by
            rw [List.lookup_append]
            cases hl : acc.lookup v
            · simp [lookup_cons_self]
            · rw [hl] at hsk; simp at hsk
          rw [evalFold_persists N rest _ full h v x this]
          rfl
        · exact ih _ full h v hv

theorem lookup_append_right_of_none {β : Type} (l1 l2 : List (Nat × β))
    (k : Nat) (h : l1.lookup k = none) :
    (l1 ++ l2).lookup k = l2.lookup k := by
  rw [List.lookup_append, h]
  rfl

theorem evalFold_pinned (N : CausalNetwork) :
    ∀ (ord : List Nat) (acc full : Assignment),
      evalFold N ord acc = some full →
      ∀ v x, v ∈ ord → acc.lookup v = none →
        N.endogenous_bindings.lookup v = some x →
        full.lookup v = some x := by
  intro ord
  induction ord with
  | nil => intro acc full _ v x hv; cases hv
  | cons u rest ih =>
    intro acc full h v x hv hacc hbind
    unfold evalFold at h
    by_cases hsk : (acc.lookup u).isSome
    · rw [if_pos hsk] at h
      rcases List.mem_cons.1 hv with rfl | hv
      · rw [hacc] at hsk; cases hsk
      · exact ih acc full h v x hv hacc hbind
    · rw [if_neg hsk] at h
      cases hse : structural_equation N u acc with
      | none => rw [hse] at h; cases h
      | some y =>
        rw [hse] at h
        have h2 : evalFold N rest (acc ++ [(u, y)]) = some full := h
        by_cases hvu : v = u
        · subst hvu
          have hy : y = x := by
            have hse2 : some x = some y := by
              have h3 : structural_equation N v acc = some y := hse
              unfold structural_equation at h3
              rw [hbind] at h3
              exact h3
            exact (Option.some_inj.1 hse2).symm
          subst hy
          exact evalFold_persists N rest _ full h2 v y
            (by rw [lookup_append_right_of_none _ _ _ hacc, lookup_cons_self])
        · have hvr : v ∈ rest := by
            rcases List.mem_cons.1 hv with rfl | hv
            · exact absurd rfl hvu
            · exact hv
          exact ih _ full h2 v x hvr
            (by rw [lookup_append_right_of_none _ _ _ hacc,
              lookup_cons_ne _ _ hvu]; rfl) hbind

theorem not_listBefore_head (u' u : Nat) (rest : List Nat)
    (hnd : (u :: rest).Nodup) : ¬ listBefore u' u (u :: rest) := by
  intro h
  have hu : u ∉ rest := by
    rw [List.nodup_cons] at hnd
    exact hnd.1
  unfold listBefore at h
  cases h with
  | cons _ h' => exact hu (h'.subset (by simp))
  | cons₂ _ h' => exact hu (h'.subset (by simp))

theorem evalFold_equation (N : CausalNetwork) :
    ∀ (ord : List Nat) (acc full : Assignment),
      ord.Nodup → evalFold N ord acc = some full →
      ∀ v, v ∈ ord → acc.lookup v = none →
        N.endogenous_bindings.lookup v = none →
        ∀ f, N.structural_equations.lookup v = some f →
        ∃ accv : Assignment, full.lookup v = some (f (fun k => accv.lookup k)) ∧
          (∀ k y, accv.lookup k = some y → full.lookup k = some y) ∧
          (∀ u, listBefore u v ord → (accv.lookup u).isSome) ∧
          (∀ k y, acc.lookup k = some y → accv.lookup k = some y) := by
  intro ord
  induction ord with
  | nil => intro acc full _ _ v hv; cases hv
  | cons u rest ih =>
    intro acc full hnd h v hv hacc hbind f hf
    have hndr : rest.Nodup := (List.nodup_cons.1 hnd).2
    unfold evalFold at h
    by_cases hsk : (acc.lookup u).isSome
    · rw [if_pos hsk] at h
      have hvu : v ≠ u := by
        intro heq
        rw [← heq, hacc] at hsk
        simp at hsk
      have hvr : v ∈ rest := by
        rcases List.mem_cons.1 hv with rfl | hv
        · exact absurd rfl hvu
        · exact hv
      obtain ⟨accv, h1, h2, h3, h4⟩ := ih acc full hndr h v hvr hacc hbind f hf
      refine ⟨accv, h1, h2, ?_, h4⟩
      intro u' hbef
      unfold listBefore at hbef
      cases hbef with
      | cons _ h' => exact h3 u' h'
      | cons₂ _ h' =>
        obtain ⟨y, hy⟩ := Option.isSome_iff_exists.1 hsk
        exact Option.isSome_iff_exists.2 ⟨y, h4 u y hy⟩
    · rw [if_neg hsk] at h
      cases hse : structural_equation N u acc with
      | none => rw [hse] at h; cases h
      | some y =>
        rw [hse] at h
        have h2 : evalFold N rest (acc ++ [(u, y)]) = some full := h
        by_cases hvu : v = u
        · subst hvu
          have hy : y = f (fun k => acc.lookup k) := by
            have h3 : structural_equation N v acc = some y := hse
            unfold structural_equation at h3
            rw [hbind, hf] at h3
            have h4 : some (f (fun k => acc.lookup k)) = some y := h3
            exact (Option.some_inj.1 h4).symm
          refine ⟨acc, ?_, ?_, ?_, fun k z hz => hz⟩
          · rw [evalFold_persists N rest _ full h2 v y
              (by rw [lookup_append_right_of_none _ _ _ hacc, lookup_cons_self]),
              hy]
          · intro k z hz
            exact evalFold_persists N rest _ full h2 k z
              (by rw [List.lookup_append, hz]; rfl)
          · intro u' hbef
            exact absurd hbef (not_listBefore_head u' v rest hnd)
        · have hvr : v ∈ rest := by
            rcases List.mem_cons.1 hv with rfl | hv
            · exact absurd rfl hvu
            · exact hv
          have hacc' : (acc ++ [(u, y)]).lookup v = none := by
            rw [lookup_append_right_of_none _ _ _ hacc, lookup_cons_ne _ _ hvu]
            rfl
          obtain ⟨accv, ha1, ha2, ha3, ha4⟩ :=
            ih _ full hndr h2 v hvr hacc' hbind f hf
          refine ⟨accv, ha1, ha2, ?_, ?_⟩
          · intro u' hbef
            unfold listBefore at hbef
            cases hbef with
            | cons _ h' => exact ha3 u' h'
            | cons₂ _ h' =>
              refine Option.isSome_iff_exists.2 ⟨y, ha4 u y ?_⟩
              have haccu : acc.lookup u = none := by
                cases hl : acc.lookup u
                · rfl
                · rw [hl] at hsk; simp at hsk
              rw [lookup_append_right_of_none _ _ _ haccu, lookup_cons_self]
          · intro k z hz
            exact ha4 k z (by rw [List.lookup_append, hz]; rfl)

/-! Lemmas about `evaluate`. -/

theorem evaluate_parts (N : CausalNetwork) (c derived : Assignment)
    (h : evaluate N c = some derived) :
    ∃ ord full, topoSort N.edges = some ord ∧ evalFold N ord c = some full ∧
      derived = full.filter (fun p => !(keysOf c).contains p.1) := by
  unfold evaluate at h
  cases ht : topoSort N.edges with
  | none => rw [ht] at h; cases h
  | some ord =>
    rw [ht] at h
    have h2 : (evalFold N ord c).map
        (fun values => values.filter (fun p => !(keysOf c).contains p.1)) =
        some derived := h
    cases hf : evalFold N ord c with
    | none => rw [hf] at h2; cases h2
    | some full =>
      rw [hf] at h2
      cases h2
      exact ⟨ord, full, rfl, hf, rfl⟩

theorem derived_lookup_eq (c full : Assignment) (k : Nat) :
    (full.filter (fun p => !(keysOf c).contains p.1)).lookup k =
      if k ∈ keysOf c then none else full.lookup k := by
  rw [lookup_filter_key full (fun x => !(keysOf c).contains x) k]
  by_cases h : k ∈ keysOf c
  · simp [h]
  · simp [h]

theorem evaluate_union_lookup (N : CausalNetwork) (c derived : Assignment)
    (h : evaluate N c = some derived) :
    ∃ ord full, topoSort N.edges = some ord ∧ evalFold N ord c = some full ∧
      (∀ k, (dictUnion c derived).lookup k = full.lookup k) ∧
      (∀ k, derived.lookup k = if k ∈ keysOf c then none else full.lookup k) := by
  obtain ⟨ord, full, ht, hf, rfl⟩ := evaluate_parts N c derived h
  refine ⟨ord, full, ht, hf, ?_, fun k => derived_lookup_eq c full k⟩
  intro k
  rw [dictUnion_lookup]
  obtain ⟨extra, rfl, _⟩ := evalFold_shape N ord c full hf
  rw [derived_lookup_eq]
  by_cases hk : k ∈ keysOf c
  · rw [if_pos hk]
    have : (c.lookup k).isSome := (lookup_isSome_iff c k).2 hk
    obtain ⟨y, hy⟩ := Option.isSome_iff_exists.1 this
    rw [List.lookup_append, hy]
    rfl
  · rw [if_neg hk]
    have hc : c.lookup k = none := (lookup_eq_none_iff c k).2 hk
    rw [lookup_append_right_of_none _ _ _ hc]
    cases hl : extra.lookup k
    · rw [hc]
    · rfl

theorem evaluate_pinned (N : CausalNetwork) (c derived : Assignment)
    (h : evaluate N c = some derived) (v x : Nat)
    (hv : v ∈ nodesOf N.edges) (hc : c.lookup v = none)
    (hb : N.endogenous_bindings.lookup v = some x) :
    derived.lookup v = some x := by
  obtain ⟨ord, full, ht, hf, rfl⟩ := evaluate_parts N c derived h
  have hvord : v ∈ ord := (topoSort_perm _ _ ht).mem_iff.2 hv
  rw [derived_lookup_eq, if_neg ((lookup_eq_none_iff c v).1 hc)]
  exact evalFold_pinned N ord c full hf v x hvord hc hb

theorem evaluate_keys (N : CausalNetwork) (c derived : Assignment)
    (h : evaluate N c = some derived) (v : Nat) :
    (derived.lookup v).isSome ↔ v ∈ nodesOf N.edges ∧ v ∉ keysOf c := by
  obtain ⟨ord, full, ht, hf, rfl⟩ := evaluate_parts N c derived h
  rw [derived_lookup_eq]
  by_cases hk : v ∈ keysOf c
  · simp [hk]
  · rw [if_neg hk]
    constructor
    · intro hs
      refine ⟨?_, hk⟩
      obtain ⟨extra, rfl, hprops⟩ := evalFold_shape N ord c full hf
      rw [List.lookup_append, (lookup_eq_none_iff c v).2 hk] at hs
      have : (extra.lookup v).isSome := hs
      have hvk : v ∈ keysOf extra := (lookup_isSome_iff extra v).1 this
      obtain ⟨p, hp, hpv⟩ := List.mem_map.1 hvk
      have := (hprops p hp).1
      rw [hpv] at this
      exact (topoSort_perm _ _ ht).mem_iff.1 this
    · intro ⟨hnode, _⟩
      exact evalFold_covers N ord c full hf v
        ((topoSort_perm _ _ ht).mem_iff.2 hnode)

theorem predsOf_mem (N : CausalNetwork) (v p : Nat) :
    p ∈ predsOf N v ↔ (p, v) ∈ N.edges := by
  unfold predsOf
  constructor
  · intro h
    obtain ⟨q, hq, hqp⟩ := List.mem_map.1 h
    have hmem := List.mem_of_mem_filter hq
    have hqv : q.2 = v := by
      have := (List.mem_filter.1 hq).2
      simpa using this
    have : q = (p, v) := by
      obtain ⟨q1, q2⟩ := q
      simp only [Prod.mk.injEq]
      exact ⟨hqp, hqv⟩
    rw [← this]
    exact hmem
  · intro h
    exact List.mem_map.2 ⟨(p, v), List.mem_filter.2 ⟨h, by simp⟩, rfl⟩

theorem evaluate_equation (N : CausalNetwork) (c derived : Assignment)
    (h : evaluate N c = some derived) (v : Nat) (f : StructuralEquation)
    (hv : v ∈ nodesOf N.edges) (hc : c.lookup v = none)
    (hb : N.endogenous_bindings.lookup v = none)
    (hf : N.structural_equations.lookup v = some f)
    (hdep : ∀ g g' : Nat → Option Nat,
      (∀ p ∈ predsOf N v, g p = g' p) → f g = f g') :
    derived.lookup v =
      some (f (restrictLookup (predsOf N v) (dictUnion c derived))) := by
  obtain ⟨ord, full, ht, hfold, hunion, hder⟩ := evaluate_union_lookup N c derived h
  have hvord : v ∈ ord := (topoSort_perm _ _ ht).mem_iff.2 hv
  obtain ⟨accv, h1, h2, h3, _⟩ := evalFold_equation N ord c full
    (topoSort_nodup _ _ ht) hfold v hvord hc hb f hf
  have hargs : f (fun k => accv.lookup k) =
      f (restrictLookup (predsOf N v) (dictUnion c derived)) := by
    apply hdep
    intro p hp
    have hedge : (p, v) ∈ N.edges := (predsOf_mem N v p).1 hp
    have hbef : listBefore p v ord := topoSort_before N.edges ord ht p v hedge
    obtain ⟨y, hy⟩ := Option.isSome_iff_exists.1 (h3 p hbef)
    rw [hy]
    unfold restrictLookup
    rw [if_pos (by simpa using hp), hunion p, h2 p y hy]
  rw [hder, if_neg ((lookup_eq_none_iff c v).1 hc), h1, hargs]

/-! Congruence lemmas: computations only consult the override map through
lookups, so pointwise-equal interventions behave identically. -/

theorem structural_equation_congr (N1 N2 : CausalNetwork)
    (hF : N1.structural_equations = N2.structural_equations)
    (hB : ∀ k, N1.endogenous_bindings.lookup k = N2.endogenous_bindings.lookup k)
    (v : Nat) (values : Assignment) :
    structural_equation N1 v values = structural_equation N2 v values := by
  unfold structural_equation
  rw [hB v, hF]

theorem evalFold_congr (N1 N2 : CausalNetwork)
    (hF : N1.structural_equations = N2.structural_equations)
    (hB : ∀ k, N1.endogenous_bindings.lookup k = N2.endogenous_bindings.lookup k) :
    ∀ (ord : List Nat) (acc : Assignment),
      evalFold N1 ord acc = evalFold N2 ord acc := by
  intro ord
  induction ord with
  | nil => intro acc; rfl
  | cons v rest ih =>
    intro acc
    unfold evalFold
    rw [structural_equation_congr N1 N2 hF hB v acc]
    by_cases h : (acc.lookup v).isSome
    · rw [if_pos h, if_pos h, ih]
    · rw [if_neg h, if_neg h]
      cases structural_equation N2 v acc
      · rfl
      · exact ih _

theorem evaluate_congr (N1 N2 : CausalNetwork)
    (hE : N1.edges = N2.edges)
    (hF : N1.structural_equations = N2.structural_equations)
    (hB : ∀ k, N1.endogenous_bindings.lookup k = N2.endogenous_bindings.lookup k)
    (c : Assignment) : evaluate N1 c = evaluate N2 c := by
  unfold evaluate
  rw [hE]
  cases topoSort N2.edges with
  | none => rfl
  | some ord =>
    show (evalFold N1 ord c).map
        (fun values => values.filter (fun p => !(keysOf c).contains p.1)) =
      (evalFold N2 ord c).map
        (fun values => values.filter (fun p => !(keysOf c).contains p.1))
    rw [evalFold_congr N1 N2 hF hB ord c]

theorem intervene_parts (N : CausalNetwork) (itv : Assignment)
    (M : CausalNetwork) (h : intervene N itv = some M) :
    M.endogenous_bindings = itv ∧
    ∀ itv2, intervene N itv2 =
      some ⟨M.edges, M.structural_equations, itv2⟩ := by
  unfold intervene at h ⊢
  cases hm : mapMO
      (fun v => (N.structural_equations.lookup v).map (fun f => (v, f)))
      (endogenousVariables N) with
  | none => rw [hm] at h; cases h
  | some ft =>
    rw [hm] at h
    cases h
    exact ⟨rfl, fun itv2 => rfl⟩

theorem mkSetting_values_congr (N1 N2 : CausalNetwork)
    (c : Assignment) (dx dy : List (Nat × List Nat))
    (hE : N1.edges = N2.edges)
    (hF : N1.structural_equations = N2.structural_equations)
    (hB : ∀ k, N1.endogenous_bindings.lookup k = N2.endogenous_bindings.lookup k) :
    (mkSetting N1 c dx dy = none ∧ mkSetting N2 c dx dy = none) ∨
    (∃ S1 S2, mkSetting N1 c dx dy = some S1 ∧ mkSetting N2 c dx dy = some S2 ∧
      S1.values = S2.values) := by
  have hexo : exogenousVariables N1 = exogenousVariables N2 := by
    unfold exogenousVariables
    rw [hE]
  have hendo : endogenousVariables N1 = endogenousVariables N2 := by
    unfold endogenousVariables
    rw [hE]
  unfold mkSetting
  rw [hexo, hendo, evaluate_congr N1 N2 hE hF hB c]
  by_cases hcond : (setEq (exogenousVariables N2) (keysOf c)
      && setEq (exogenousVariables N2) (keysOf dx)
      && setEq (endogenousVariables N2) (keysOf dy)
      && dx.all (fun p =>
           match c.lookup p.1 with
           | some v => p.2.contains v
           | none => false)) = true
  · rw [if_pos hcond, if_pos hcond]
    cases hev : evaluate N2 c with
    | none => exact Or.inl ⟨rfl, rfl⟩
    | some derived =>
      by_cases hdy : (dy.all (fun p =>
          match (dictUnion c derived).lookup p.1 with
          | some v => p.2.contains v
          | none => false)) = true
      · refine Or.inr ⟨⟨N1, c, dx, dy, derived, dictUnion c derived⟩,
          ⟨N2, c, dx, dy, derived, dictUnion c derived⟩, ?_, ?_, rfl⟩
        · show (if (dy.all (fun p =>
              match (dictUnion c derived).lookup p.1 with
              | some v => p.2.contains v
              | none => false)) = true then
              some (⟨N1, c, dx, dy, derived, dictUnion c derived⟩ : CausalSetting)
            else none) = _
          rw [if_pos hdy]
        · show (if (dy.all (fun p =>
              match (dictUnion c derived).lookup p.1 with
              | some v => p.2.contains v
              | none => false)) = true then
              some (⟨N2, c, dx, dy, derived, dictUnion c derived⟩ : CausalSetting)
            else none) = _
          rw [if_pos hdy]
      · refine Or.inl ⟨?_, ?_⟩
        · show (if (dy.all (fun p =>
              match (dictUnion c derived).lookup p.1 with
              | some v => p.2.contains v
              | none => false)) = true then
              some (⟨N1, c, dx, dy, derived, dictUnion c derived⟩ : CausalSetting)
            else none) = none
          rw [if_neg hdy]
        · show (if (dy.all (fun p =>
              match (dictUnion c derived).lookup p.1 with
              | some v => p.2.contains v
              | none => false)) = true then
              some (⟨N2, c, dx, dy, derived, dictUnion c derived⟩ : CausalSetting)
            else none) = none
          rw [if_neg hdy]
  · rw [if_neg hcond, if_neg hcond]
    exact Or.inl ⟨rfl, rfl⟩

theorem entailsFormula_congr (S : CausalSetting) (itv1 itv2 : Assignment)
    (h : ∀ k, itv1.lookup k = itv2.lookup k) (e : Event) :
    entailsFormula itv1 e S = entailsFormula itv2 e S := by
  unfold entailsFormula
  cases h1 : intervene S.causal_network itv1 with
  | none =>
    have h2 : intervene S.causal_network itv2 = none := by
      unfold intervene at h1 ⊢
      cases hm : mapMO
          (fun v => (S.causal_network.structural_equations.lookup v).map
            (fun f => (v, f)))
          (endogenousVariables S.causal_network) with
      | none => rfl
      | some ft => rw [hm] at h1; cases h1
    rw [h2]
  | some M1 =>
    obtain ⟨hb1, hall⟩ := intervene_parts _ _ _ h1
    rw [hall itv2]
    have hB : ∀ k, M1.endogenous_bindings.lookup k =
        (itv2 : Assignment).lookup k := by
      intro k
      rw [hb1]
      exact h k
    have hgoal : ∀ r1 r2 : Option CausalSetting,
        r1 = mkSetting M1 S.context S.exogenous_domains S.endogenous_domains →
        r2 = mkSetting ⟨M1.edges, M1.structural_equations, itv2⟩
          S.context S.exogenous_domains S.endogenous_domains →
        (match r1 with
         | none => none
         | some S' => entails e S') =
        (match r2 with
         | none => (none : Option Bool)
         | some S' => entails e S') := by
      intro r1 r2 hr1 hr2
      rcases mkSetting_values_congr M1 ⟨M1.edges, M1.structural_equations, itv2⟩
          S.context S.exogenous_domains S.endogenous_domains rfl rfl hB with
        ⟨hn1, hn2⟩ | ⟨S1, S2, hs1, hs2, hv⟩
      · rw [hr1, hr2, hn1, hn2]
      · rw [hr1, hr2, hs1, hs2]
        show entails e S1 = entails e S2
        unfold entails
        rw [hv]
    exact hgoal _ _ rfl rfl

/-! Small lemmas about the decision procedures. -/

theorem weak_actual_cause_nil (e : Event) (S : CausalSetting) :
    is_weak_actual_cause [] e S = some false := rfl

theorem insertEntry_lookup_self {β : Type} :
    ∀ (l : List (Nat × β)) (k : Nat) (x : β),
      (insertEntry l k x).lookup k = some x := by
  intro l
  induction l with
  | nil => intro k x; exact lookup_cons_self k x []
  | cons p rest ih =>
    intro k x
    obtain ⟨k', y⟩ := p
    unfold insertEntry
    by_cases h : k' = k
    · rw [if_pos (by simpa using h)]
      exact lookup_cons_self k x rest
    · rw [if_neg (by simpa using h)]
      rw [lookup_cons_ne y _ (fun hk => h hk.symm)]
      exact ih k x

theorem insertEdge_mem_mono (es : List (Nat × Nat)) (e q : Nat × Nat)
    (h : q ∈ es) : q ∈ insertEdge es e := by
  unfold insertEdge
  split
  · exact h
  · exact List.mem_append_left _ h

theorem insertEdge_mem_self (es : List (Nat × Nat)) (q : Nat × Nat) :
    q ∈ insertEdge es q := by
  unfold insertEdge
  split
  · next h => exact List.elem_iff.1 h
  · exact List.mem_append_right _ (by simp)

theorem foldl_insertEdge_mem (v : Nat) :
    ∀ (ps : List Nat) (es : List (Nat × Nat)),
      (∀ q ∈ es, q ∈ ps.foldl (fun es p => insertEdge es (p, v)) es) ∧
      (∀ p ∈ ps, (p, v) ∈ ps.foldl (fun es p => insertEdge es (p, v)) es) := by
  intro ps
  induction ps with
  | nil => intro es; exact ⟨fun q hq => hq, fun p hp => absurd hp (by simp)⟩
  | cons p0 pt ih =>
    intro es
    rw [List.foldl_cons]
    refine ⟨?_, ?_⟩
    · intro q hq
      exact (ih (insertEdge es (p0, v))).1 q (insertEdge_mem_mono es (p0, v) q hq)
    · intro p hp
      rcases List.mem_cons.1 hp with rfl | hp
      · exact (ih (insertEdge es (p, v))).1 (p, v) (insertEdge_mem_self es (p, v))
      · exact (ih (insertEdge es (p0, v))).2 p hp

/-- Claim C8 (counterexample): two `add_dependency` calls that close the cycle
`2 -> 3 -> 2` do not fail; the second call registers its edge and its
structural equation, and only the later forward evaluation fails when the
topological sort rejects the cyclic graph.  This refutes the claim that
`add_dependency` fails with `InvalidGraph` instead of registering the
dependency. -/
theorem c8_cycle_counterexample :
    (3, 2) ∈ cycleNet.edges ∧ (2, 3) ∈ cycleNet.edges ∧
    (cycleNet.structural_equations.lookup 3).isSome = true ∧
    (cycleNet.structural_equations.lookup 2).isSome = true ∧
    evaluate cycleNet [] = none := by
  refine ⟨by decide, by decide, ?_, ?_, rfl⟩
  · rw [show cycleNet.structural_equations.lookup 3 = some (fun _ => 0) from rfl]
    rfl
  · rw [show cycleNet.structural_equations.lookup 2 = some (fun _ => 0) from rfl]
    rfl

/-- Claim C8 (amended): `add_dependency` performs no cycle check.  It always
succeeds, registering the edge `parent -> V` for every parent and recording
the structural equation, and leaves the override map unchanged; a cycle only
surfaces later, when `evaluate`'s topological sort fails. -/
theorem c8_add_dependency_always_registers (N : CausalNetwork) (v : Nat)
    (parents : List Nat) (f : StructuralEquation) :
    (add_dependency N v parents f).structural_equations.lookup v = some f ∧
    (∀ p ∈ parents, (p, v) ∈ (add_dependency N v parents f).edges) ∧
    (add_dependency N v parents f).endogenous_bindings =
      N.endogenous_bindings := by
  refine ⟨insertEntry_lookup_self N.structural_equations v f, ?_, rfl⟩
  intro p hp
  exact (foldl_insertEdge_mem v parents N.edges).2 p hp

/-- Witness for the amended C8 theorem at a concrete input. -/
theorem c8_witness :
    (2, 3) ∈ cycleNet.edges ∧
    cycleNet.structural_equations.lookup 3 = some (fun _ => 0) := by
  have h := c8_add_dependency_always_registers
    (add_dependency ⟨[], [], []⟩ 2 [3] (fun _ => 0)) 3 [2] (fun _ => 0)
  exact ⟨h.2.1 2 (by simp), h.1⟩

/-- Claim C5 (amended): on the empty candidate, the actual-cause predicates
return false, but the sufficient-cause predicates propagate the assertion
failure from `assignments2conjunction` (inside SC1) instead of returning
false. -/
theorem c5_empty_candidate (e : Event) (S : CausalSetting) :
    is_weak_actual_cause [] e S = some false ∧
    is_actual_cause [] e S = some false ∧
    is_weak_sufficient_cause [] e S = none ∧
    is_sufficient_cause [] e S = none :=
  ⟨rfl, rfl, rfl, rfl⟩

/-- Claim C5 (counterexample): at a concrete event and setting, the
sufficient-cause predicates raise (return `none`) on the empty candidate
rather than returning false. -/
theorem c5_counterexample :
    mkSetting fireNetwork [(1, 1)] [(1, [0, 1])]
      [(2, [0, 1]), (3, [0, 1]), (4, [0, 1])] = some fireSetting ∧
    is_weak_sufficient_cause [] (.prim 4 1) fireSetting = none ∧
    is_sufficient_cause [] (.prim 4 1) fireSetting = none ∧
    (none : Option Bool) ≠ some false :=
  ⟨rfl, rfl, rfl, by decide⟩

theorem dictEq_nil_singleton (v x : Nat) : dictEq [] [(v, x)] = false := by
  cases h : dictEq [] [(v, x)]
  · rfl
  · exact absurd ((dictEq_nil_iff _).1 h) (by simp)

/-- Claim C9: on a singleton candidate, AC3 is vacuous (the only strict
sub-dictionaries are the empty one, never a weak actual cause, and the
candidate itself, which is skipped), so `is_actual_cause` coincides with
`is_weak_actual_cause`, including on error propagation. -/
theorem c9_singleton_actual_iff_weak (v x : Nat) (e : Event)
    (S : CausalSetting) :
    is_actual_cause [(v, x)] e S = is_weak_actual_cause [(v, x)] e S := by
  unfold is_actual_cause
  cases hw : is_weak_actual_cause [(v, x)] e S with
  | none => rfl
  | some b =>
    cases b
    · rfl
    · show satisfies_ac3 [(v, x)] e S = some true
      unfold satisfies_ac3 powerdict
      rw [List.sublists_singleton]
      unfold ac3Scan
      rw [if_neg (by rw [dictEq_nil_singleton]; simp)]
      rw [weak_actual_cause_nil]
      unfold ac3Scan
      rw [if_pos (dictEq_refl [(v, x)])]
      rfl

/-- Evaluation of an event never errors when every mentioned variable has a
value; short-circuiting cannot create errors, only avoid them. -/
theorem entailedBy_total :
    ∀ (e : Event) (m : Assignment),
      (∀ v ∈ eventVariables e, v ∈ keysOf m) →
      (entailedBy e m).isSome = true := by
  intro e
  induction e with
  | prim v x =>
    intro m h
    have hv : v ∈ keysOf m := h v (by simp [eventVariables])
    obtain ⟨y, hy⟩ := Option.isSome_iff_exists.1 ((lookup_isSome_iff m v).2 hv)
    unfold entailedBy
    rw [hy]
    rfl
  | neg c ih =>
    intro m h
    have := ih m (fun v hv => h v (by simpa [eventVariables] using hv))
    unfold entailedBy
    cases hc : entailedBy c m
    · rw [hc] at this; cases this
    · rfl
  | conj l r ihl ihr =>
    intro m h
    have hl := ihl m (fun v hv =>
      h v (by simp only [eventVariables, List.mem_append]; exact Or.inl hv))
    have hr := ihr m (fun v hv =>
      h v (by simp only [eventVariables, List.mem_append]; exact Or.inr hv))
    unfold entailedBy
    cases hel : entailedBy l m with
    | none => rw [hel] at hl; cases hl
    | some b => cases b <;> simp [hr]
  | disj l r ihl ihr =>
    intro m h
    have hl := ihl m (fun v hv =>
      h v (by simp only [eventVariables, List.mem_append]; exact Or.inl hv))
    have hr := ihr m (fun v hv =>
      h v (by simp only [eventVariables, List.mem_append]; exact Or.inr hv))
    unfold entailedBy
    cases hel : entailedBy l m with
    | none => rw [hel] at hl; cases hl
    | some b => cases b <;> simp [hr]

theorem mkSetting_inv (N : CausalNetwork) (c : Assignment)
    (dx dy : List (Nat × List Nat)) (S : CausalSetting)
    (h : mkSetting N c dx dy = some S) :
    S.causal_network = N ∧ S.context = c ∧ S.exogenous_domains = dx ∧
    S.endogenous_domains = dy ∧
    setEq (exogenousVariables N) (keysOf c) = true ∧
    setEq (exogenousVariables N) (keysOf dx) = true ∧
    setEq (endogenousVariables N) (keysOf dy) = true ∧
    (dx.all (fun p =>
      match c.lookup p.1 with
      | some v => p.2.contains v
      | none => false)) = true ∧
    evaluate N c = some S.derived_values ∧
    S.values = dictUnion c S.derived_values ∧
    (dy.all (fun p =>
      match S.values.lookup p.1 with
      | some v => p.2.contains v
      | none => false)) = true := by
  unfold mkSetting at h
  by_cases hcond : (setEq (exogenousVariables N) (keysOf c)
      && setEq (exogenousVariables N) (keysOf dx)
      && setEq (endogenousVariables N) (keysOf dy)
      && dx.all (fun p =>
           match c.lookup p.1 with
           | some v => p.2.contains v
           | none => false)) = true
  · rw [if_pos hcond] at h
    obtain ⟨⟨⟨h1, h2⟩, h3⟩, h4⟩ := by
      have := hcond
      rw [Bool.and_eq_true, Bool.and_eq_true, Bool.and_eq_true] at this
      exact this
    cases hev : evaluate N c with
    | none => rw [hev] at h; cases h
    | some derived =>
      rw [hev] at h
      have h5 : (if (dy.all (fun p =>
          match (dictUnion c derived).lookup p.1 with
          | some v => p.2.contains v
          | none => false)) = true then
          some (⟨N, c, dx, dy, derived, dictUnion c derived⟩ : CausalSetting)
        else none) = some S := h
      by_cases hdy : (dy.all (fun p =>
          match (dictUnion c derived).lookup p.1 with
          | some v => p.2.contains v
          | none => false)) = true
      · rw [if_pos hdy] at h5
        cases h5
        refine ⟨rfl, rfl, rfl, rfl, h1, h2, h3, h4, rfl, rfl, ?_⟩
        show (dy.all (fun p =>
          match (dictUnion c derived).lookup p.1 with
          | some v => p.2.contains v
          | none => false)) = true
        exact hdy
      · rw [if_neg hdy] at h5
        cases h5
  · rw [if_neg hcond] at h
    cases h

/-- Claim C10 (amended): a primitive event over a variable absent from the
setting's valuation makes `entails` raise a KeyError, and `entails` always
returns a Boolean when every variable of the event is exogenous or endogenous
in the network of a validly constructed setting; however, short-circuit
evaluation may return a Boolean even when the event mentions an unknown
variable. -/
theorem c10_entails_totality :
    (∀ (v x : Nat) (S : CausalSetting), S.values.lookup v = none →
      entails (.prim v x) S = none) ∧
    (∀ (N : CausalNetwork) (c : Assignment) (dx dy : List (Nat × List Nat))
      (S : CausalSetting), mkSetting N c dx dy = some S →
      ∀ e : Event,
        (∀ v ∈ eventVariables e,
          v ∈ exogenousVariables N ∨ v ∈ endogenousVariables N) →
        (entails e S).isSome = true) := by
  constructor
  · intro v x S h
    unfold entails entailedBy
    rw [h]
    rfl
  · intro N c dx dy S hmk e hvars
    obtain ⟨_, _, _, _, hsig, _, _, _, hev, hval, _⟩ := mkSetting_inv N c dx dy S hmk
    apply entailedBy_total
    intro v hv
    rw [← lookup_isSome_iff, hval, dictUnion_lookup]
    rcases hvars v hv with hexo | hendo
    · have hc : v ∈ keysOf c := ((setEq_true_iff _ _).1 hsig v).1 hexo
      obtain ⟨y, hy⟩ := Option.isSome_iff_exists.1 ((lookup_isSome_iff c v).2 hc)
      cases hd : S.derived_values.lookup v
      · rw [hy]; rfl
      · rfl
    · have hnotexo : v ∉ keysOf c := by
        intro hc
        have hvexo : v ∈ exogenousVariables N := ((setEq_true_iff _ _).1 hsig v).2 hc
        unfold exogenousVariables at hvexo
        unfold endogenousVariables at hendo
        have h1 := (List.mem_filter.1 hvexo).2
        have h2 := (List.mem_filter.1 hendo).2
        rw [h1] at h2
        cases h2
      have hnode : v ∈ nodesOf N.edges := (List.mem_filter.1 hendo).1
      have := (evaluate_keys N c S.derived_values hev v).2 ⟨hnode, hnotexo⟩
      obtain ⟨y, hy⟩ := Option.isSome_iff_exists.1 this
      rw [hy]
      rfl

/-- Witness for the amended C10 theorem at concrete inputs. -/
theorem c10_witness :
    entails (.prim 9 0) setE = none ∧ (entails (.prim 1 5) setE).isSome = true :=
  ⟨c10_entails_totality.1 9 0 setE rfl,
   c10_entails_totality.2 netE [(1, 5)] [(1, [5])] [(2, [5])] setE rfl
     (.prim 1 5) (by decide)⟩

/-- Claim C10 (counterexample): an event that mentions the unknown variable
`3` still evaluates to a Boolean, because conjunction short-circuits on its
false left conjunct; so `entails` is not always undefined when `e` mentions a
variable outside the setting.  This refutes the claim that evaluation fails
with a lookup error whenever `e` contains a primitive over an unknown
variable. -/
theorem c10_shortcircuit_counterexample :
    mkSetting netE [(1, 5)] [(1, [5])] [(2, [5])] = some setE ∧
    3 ∈ eventVariables (.conj (.prim 1 0) (.prim 3 0)) ∧
    3 ∉ exogenousVariables netE ∧ 3 ∉ endogenousVariables netE ∧
    setE.values.lookup 3 = none ∧
    entails (.conj (.prim 1 0) (.prim 3 0)) setE = some false :=
  ⟨rfl, by decide, by decide, by decide, rfl, rfl⟩

theorem all_domains_iff (m : Assignment) (doms : List (Nat × List Nat)) :
    (doms.all (fun p =>
      match m.lookup p.1 with
      | some v => p.2.contains v
      | none => false)) = true ↔ DomainsRespected m doms := by
  rw [List.all_eq_true]
  constructor
  · intro h p hp
    have hx := h p hp
    cases hl : m.lookup p.1 with
    | none => rw [hl] at hx; cases hx
    | some v =>
      rw [hl] at hx
      exact ⟨v, rfl, by simpa using hx⟩
  · intro h p hp
    obtain ⟨v, hv, hvd⟩ := h p hp
    rw [hv]
    simpa using hvd

/-- Claim C7: `make_setting` succeeds exactly when the signature matches the
keys of the context and domain maps, every exogenous value is inside its
declared domain, evaluation succeeds, and every derived endogenous value is
inside its declared domain (in particular it fails when a structural equation
returns a value outside the declared domain); a successfully constructed
setting exposes `values = context ∪ derived`. -/
theorem c7_make_setting_validation (N : CausalNetwork) (c : Assignment)
    (dx dy : List (Nat × List Nat)) :
    ((mkSetting N c dx dy).isSome = true ↔
      SignatureMatches N c dx dy ∧ DomainsRespected c dx ∧
      ∃ d, evaluate N c = some d ∧ DomainsRespected (dictUnion c d) dy) ∧
    (∀ S, mkSetting N c dx dy = some S →
      S.values = dictUnion c S.derived_values ∧
      evaluate N c = some S.derived_values ∧
      S.causal_network = N ∧ S.context = c) := by
  constructor
  · constructor
    · intro h
      obtain ⟨S, hS⟩ := Option.isSome_iff_exists.1 h
      obtain ⟨_, _, _, _, h1, h2, h3, h4, hev, hval, hdy⟩ :=
        mkSetting_inv N c dx dy S hS
      refine ⟨⟨(setEq_true_iff _ _).1 h1, (setEq_true_iff _ _).1 h2,
        (setEq_true_iff _ _).1 h3⟩, (all_domains_iff c dx).1 h4,
        S.derived_values, hev, ?_⟩
      rw [← hval]
      exact (all_domains_iff _ dy).1 hdy
    · rintro ⟨⟨h1, h2, h3⟩, h4, d, hev, hdy⟩
      unfold mkSetting
      have hcond : (setEq (exogenousVariables N) (keysOf c)
          && setEq (exogenousVariables N) (keysOf dx)
          && setEq (endogenousVariables N) (keysOf dy)
          && dx.all (fun p =>
               match c.lookup p.1 with
               | some v => p.2.contains v
               | none => false)) = true := by
        rw [Bool.and_eq_true, Bool.and_eq_true, Bool.and_eq_true]
        exact ⟨⟨⟨(setEq_true_iff _ _).2 h1, (setEq_true_iff _ _).2 h2⟩,
          (setEq_true_iff _ _).2 h3⟩, (all_domains_iff c dx).2 h4⟩
      rw [if_pos hcond, hev]
      have h5 : (if (dy.all (fun p =>
          match (dictUnion c d).lookup p.1 with
          | some v => p.2.contains v
          | none => false)) = true then
          some (⟨N, c, dx, dy, d, dictUnion c d⟩ : CausalSetting)
        else none).isSome = true := by
        rw [if_pos ((all_domains_iff _ dy).2 hdy)]
        rfl
      exact h5
  · intro S hS
    obtain ⟨hn, hc, _, _, _, _, _, _, hev, hval, _⟩ := mkSetting_inv N c dx dy S hS
    exact ⟨hval, hev, hn, hc⟩

/-- Witness for C7: a setting whose checks pass is constructed, and the
spec's domain-violation scenario (an equation returning `2` against the
declared domain `{0, 1}`) makes `make_setting` fail. -/
theorem c7_witness :
    (mkSetting netE [(1, 5)] [(1, [5])] [(2, [5])]).isSome = true ∧
    mkSetting netE2 [(1, 5)] [(1, [5])] [(2, [0, 1])] = none := by
  constructor
  · exact (c7_make_setting_validation netE [(1, 5)] [(1, [5])] [(2, [5])]).1.mpr
      ⟨⟨(setEq_true_iff _ _).1 (by decide), (setEq_true_iff _ _).1 (by decide),
        (setEq_true_iff _ _).1 (by decide)⟩,
       (all_domains_iff _ _).1 (by decide), [(2, 5)], rfl,
       (all_domains_iff _ _).1 (by decide)⟩
  · cases hmk : mkSetting netE2 [(1, 5)] [(1, [5])] [(2, [0, 1])] with
    | none => rfl
    | some S =>
      exfalso
      have hrhs := (c7_make_setting_validation netE2 [(1, 5)] [(1, [5])]
        [(2, [0, 1])]).1.mp (by rw [hmk]; rfl)
      obtain ⟨_, _, d, hd, hdom⟩ := hrhs
      have hd2 : [(2, 2)] = d :=
        Option.some_inj.1
          ((show evaluate netE2 [(1, 5)] = some [(2, 2)] from rfl).symm.trans hd)
      subst hd2
      obtain ⟨v, hv, hvm⟩ := hdom (2, [0, 1]) (by simp)
      have hv2 : (2 : Nat) = v :=
        Option.some_inj.1
          ((show (dictUnion [(1, 5)] [(2, 2)]).lookup 2 = some 2 from rfl).symm.trans hv)
      subst hv2
      simp at hvm

/-! Claim C3: SC3 against the specification's quantification over contexts. -/

theorem entailedBy_nil_none : ∀ e : Event, entailedBy e [] = none := by
  intro e
  induction e with
  | prim v x => rfl
  | neg c ih => unfold entailedBy; rw [ih]; rfl
  | conj l r ihl _ => unfold entailedBy; rw [ihl]
  | disj l r ihl _ => unfold entailedBy; rw [ihl]

theorem forall2_map_self {α β : Type} (f : α → Option β) (g : α → β) :
    ∀ l : List α, (∀ x ∈ l, f x = some (g x)) →
      List.Forall₂ (fun a b => f a = some b) l (l.map g) := by
  intro l
  induction l with
  | nil => intro _; exact List.Forall₂.nil
  | cons a rest ih =>
    intro h
    exact List.Forall₂.cons (h a (by simp))
      (ih (fun x hx => h x (List.mem_cons_of_mem a hx)))

theorem find_exact_keys_eq (domains : List (Nat × List Nat))
    (h : domains ≠ []) :
    find_exact_assignments domains (keysOf domains) =
      some (allContexts domains) := by
  unfold find_exact_assignments allContexts
  have hne : (keysOf domains).isEmpty = false := by
    cases domains with
    | nil => exact absurd rfl h
    | cons p rest => rfl
  rw [if_neg (by rw [hne]; simp)]
  have hmm := mapMO_eq_some_of_forall2 (fun v => domains.lookup v)
    (List.insertionSort (fun a b => a ≤ b) (keysOf domains))
    ((List.insertionSort (fun a b => a ≤ b) (keysOf domains)).map
      (fun v => (domains.lookup v).getD []))
    (forall2_map_self _ _ _ (by
      intro x hx
      have hxk : x ∈ keysOf domains :=
        (List.perm_insertionSort (fun a b => a ≤ b) (keysOf domains)).subset hx
      obtain ⟨y, hy⟩ :=
        Option.isSome_iff_exists.1 ((lookup_isSome_iff domains x).2 hxk)
      rw [hy]
      rfl))
  rw [hmm]

theorem sc3Scan_true_iff (candidate : Assignment) (e : Event)
    (S : CausalSetting) :
    ∀ l, (sc3Scan candidate e S l = some true ↔
      ∀ c' ∈ l, sc3Check candidate e S c' = some true) := by
  intro l
  induction l with
  | nil => simp [sc3Scan]
  | cons c0 rest ih =>
    unfold sc3Scan
    cases hc : sc3Check candidate e S c0 with
    | none =>
      constructor
      · intro h; cases h
      · intro h
        have := h c0 (by simp)
        rw [hc] at this
        cases this
    | some b =>
      cases b
      · constructor
        · intro h; cases h
        · intro h
          have := h c0 (by simp)
          rw [hc] at this
          cases this
      · rw [ih]
        constructor
        · intro h c' hc'
          rcases List.mem_cons.1 hc' with rfl | hc'
          · exact hc
          · exact h c' hc'
        · intro h c' hc'
          exact h c' (List.mem_cons_of_mem c0 hc')

theorem edges_nil_of_no_sources (N : CausalNetwork)
    (hord : (topoSort N.edges).isSome = true)
    (hexo : exogenousVariables N = []) : N.edges = [] := by
  by_contra hne
  have hnodes : nodesOf N.edges ≠ [] := by
    intro hn
    cases hes : N.edges with
    | nil => exact hne hes
    | cons e0 rest =>
      have := (nodesOf_endpoints N.edges e0 (by rw [hes]; simp)).1
      rw [hn] at this
      cases this
  obtain ⟨ord, hto⟩ := Option.isSome_iff_exists.1 hord
  unfold topoSort at hto
  cases hns : nodesOf N.edges with
  | nil => exact hnodes hns
  | cons n0 nrest =>
    rw [hns] at hto
    rw [show (n0 :: nrest).length = nrest.length + 1 from rfl] at hto
    rw [kahnAux_succ_cons] at hto
    cases hf : (n0 :: nrest).find?
        (fun v => !N.edges.any (fun e => e.2 == v)) with
    | none => rw [hf] at hto; cases hto
    | some v =>
      have hvp := List.find?_some hf
      have hvm : v ∈ nodesOf N.edges := by
        rw [hns]
        exact List.mem_of_find?_eq_some hf
      have hdeg : indeg N.edges v = 0 := by
        unfold indeg
        rw [List.length_eq_zero, List.filter_eq_nil_iff]
        intro p hp hpv
        rw [Bool.not_eq_eq_eq_not, Bool.not_true, ← Bool.not_eq_true,
          List.any_eq_true] at hvp
        exact hvp ⟨p, hp, hpv⟩
      have : v ∈ exogenousVariables N :=
        List.mem_filter.2 ⟨hvm, by rw [hdeg]; rfl⟩
      rw [hexo] at this
      cases this

theorem sc3Check_nil_exo_ne_true (candidate : Assignment) (e : Event)
    (S : CausalSetting) (hemp : S.exogenous_domains = []) :
    sc3Check candidate e S [] ≠ some true := by
  unfold sc3Check
  cases hmk : mkSetting S.causal_network [] S.exogenous_domains
      S.endogenous_domains with
  | none => simp
  | some S' =>
    obtain ⟨hn, hctx, hdx, hdyS, hsig, hsig2, hsig3, hall, hev, hvals, hdyall⟩ :=
      mkSetting_inv _ _ _ _ _ hmk
    have hexo : exogenousVariables S.causal_network = [] := by
      have := (setEq_true_iff _ _).1 hsig
      cases hx : exogenousVariables S.causal_network with
      | nil => rfl
      | cons a rest =>
        have ha := (this a).1 (by rw [hx]; simp)
        simp [keysOf] at ha
    have hedges : S.causal_network.edges = [] := by
      apply edges_nil_of_no_sources S.causal_network ?_ hexo
      obtain ⟨ord, full, hto, _, _⟩ :=
        evaluate_parts _ _ _ hev
      rw [hto]
      rfl
    have hendo : endogenousVariables S.causal_network = [] := by
      unfold endogenousVariables nodesOf
      rw [hedges]
      rfl
    have hdynil : S.endogenous_domains = [] := by
      have hmem := (setEq_true_iff _ _).1 hsig3
      rw [hendo] at hmem
      cases hdd : S.endogenous_domains with
      | nil => rfl
      | cons p rest =>
        have h2 := (hmem p.1).2 (by rw [hdd]; simp [keysOf])
        exact absurd h2 (by simp)
    intro habs
    have habs1 : entailsFormula candidate e S' = some true := habs
    unfold entailsFormula at habs1
    rw [hn, hctx, hdx, hdyS, hemp, hdynil] at habs1
    cases hiv : intervene S.causal_network candidate with
    | none => rw [hiv] at habs1; cases habs1
    | some M =>
      have hM : M = ⟨[], [], candidate⟩ := by
        unfold intervene at hiv
        rw [hendo] at hiv
        have hM2 : some (⟨[], [], candidate⟩ : CausalNetwork) = some M := hiv
        exact (Option.some_inj.1 hM2).symm
      rw [hiv] at habs1
      have habs2 : (match mkSetting M [] [] [] with
        | none => none
        | some S2 => entails e S2) = some true := habs1
      rw [hM] at habs2
      have hmk2 : mkSetting (⟨[], [], candidate⟩ : CausalNetwork) [] [] [] =
          some ⟨⟨[], [], candidate⟩, [], [], [], [], []⟩ := rfl
      rw [hmk2] at habs2
      have habs3 : entailedBy e [] = some true := habs2
      rw [entailedBy_nil_none] at habs3
      cases habs3

/-- Claim C3: `satisfies_sc3` returns true exactly when the causal formula
`[candidate] e` holds in the setting rebuilt from every total exogenous
assignment drawn from the Cartesian product of the exogenous domains.  With
no exogenous variables the left side raises (the `assert variables` in
`find_exact_assignments`) and the right side fails as well, because every
event mentions a variable and the empty network values nothing. -/
theorem c3_sc3_iff_all_contexts (candidate : Assignment) (e : Event)
    (S : CausalSetting) :
    satisfies_sc3 candidate e S = some true ↔
      ∀ c' ∈ allContexts S.exogenous_domains,
        sc3Check candidate e S c' = some true := by
  unfold satisfies_sc3
  by_cases hemp : S.exogenous_domains = []
  · rw [hemp]
    have h1 : find_exact_assignments [] (keysOf ([] : List (Nat × List Nat))) =
        none := rfl
    rw [h1]
    constructor
    · intro h; cases h
    · intro h
      have h2 := h [] (by
        show [] ∈ allContexts []
        rw [show allContexts [] = [[]] from rfl]
        simp)
      exact absurd h2 (sc3Check_nil_exo_ne_true candidate e S hemp)
  · rw [find_exact_keys_eq S.exogenous_domains hemp]
    exact sc3Scan_true_iff candidate e S (allContexts S.exogenous_domains)

/-- Witness for C3 at the forest-fire setting: forcing the candidate `2 = 1`
makes the fire event hold in every context. -/
theorem c3_witness :
    ∀ c' ∈ allContexts fireSetting.exogenous_domains,
      sc3Check [(2, 1)] (.prim 4 1) fireSetting c' = some true :=
  (c3_sc3_iff_all_contexts [(2, 1)] (.prim 4 1) fireSetting).1 (by decide)

/-! Claim C4: composition of interventions. -/

/-- Claim C4 (amended): `intervene(intervene(N, s1), s2)` carries the
override map `s2`, exactly as `intervene(N, s2)` does — the later
intervention wins on its own variables, and `s1` is discarded entirely
rather than preserved; on every variable pinned by `s2` both composite
networks evaluate to the pinned value under any context. -/
theorem c4_intervention_composition (N N1 N2 M2 : CausalNetwork)
    (s1 s2 : Assignment)
    (_h1 : intervene N s1 = some N1) (h2 : intervene N1 s2 = some N2)
    (h3 : intervene N s2 = some M2) :
    N2.endogenous_bindings = s2 ∧ M2.endogenous_bindings = s2 ∧
    (∀ (c derived : Assignment) (v x : Nat),
      evaluate N2 c = some derived → s2.lookup v = some x →
      v ∈ nodesOf N2.edges → c.lookup v = none →
      derived.lookup v = some x) ∧
    (∀ (c derived : Assignment) (v x : Nat),
      evaluate M2 c = some derived → s2.lookup v = some x →
      v ∈ nodesOf M2.edges → c.lookup v = none →
      derived.lookup v = some x) := by
  refine ⟨(intervene_parts N1 s2 N2 h2).1, (intervene_parts N s2 M2 h3).1,
    ?_, ?_⟩
  · intro c derived v x hev hs2 hv hc
    apply evaluate_pinned N2 c derived hev v x hv hc
    rw [(intervene_parts N1 s2 N2 h2).1]
    exact hs2
  · intro c derived v x hev hs2 hv hc
    apply evaluate_pinned M2 c derived hev v x hv hc
    rw [(intervene_parts N s2 M2 h3).1]
    exact hs2

/-- Witness for the amended C4 theorem at a concrete network: the composed
intervention carries exactly the later override map, and the pinned variable
`3` evaluates to its pinned value `7`. -/
theorem c4_witness :
    intervene netC [(2, 5)] = some (netCintv [(2, 5)]) ∧
    intervene (netCintv [(2, 5)]) [(3, 7)] = some (netCintv [(3, 7)]) ∧
    (netCintv [(3, 7)]).endogenous_bindings = [(3, 7)] ∧
    evaluate (netCintv [(3, 7)]) [(1, 0)] = some [(2, 0), (3, 7)] ∧
    ([(2, 0), (3, 7)] : Assignment).lookup 3 = some 7 := by
  have h := c4_intervention_composition netC (netCintv [(2, 5)])
    (netCintv [(3, 7)]) (netCintv [(3, 7)]) [(2, 5)] [(3, 7)] rfl rfl rfl
  exact ⟨rfl, rfl, h.1, rfl,
    h.2.2.1 [(1, 0)] [(2, 0), (3, 7)] 3 7 rfl rfl (by decide) rfl⟩

/-- Claim C4 (counterexample): variable `2` is pinned to `5` by the first
intervention and is untouched by the second, yet evaluating the composed
network under the context `1 = 0` yields `2 = 0` (its structural equation),
not the pinned `5`.  This refutes the part of the claim asserting that the
composition preserves the pinned values of the first intervention on
variables outside the second. -/
theorem c4_counterexample :
    intervene netC [(2, 5)] = some (netCintv [(2, 5)]) ∧
    intervene (netCintv [(2, 5)]) [(3, 7)] = some (netCintv [(3, 7)]) ∧
    2 ∉ keysOf ([(3, 7)] : Assignment) ∧
    ([(2, 5)] : Assignment).lookup 2 = some 5 ∧
    evaluate (netCintv [(3, 7)]) [(1, 0)] = some [(2, 0), (3, 7)] ∧
    ([(2, 0), (3, 7)] : Assignment).lookup 2 = some 0 ∧ (0 : Nat) ≠ 5 :=
  ⟨rfl, rfl, by decide, rfl, rfl, rfl, by decide⟩

/-! Claim C6: the forward evaluation pass. -/

theorem endo_not_exo (N : CausalNetwork) (v : Nat)
    (h : v ∈ endogenousVariables N) : v ∉ exogenousVariables N := by
  intro hx
  have h1 := (List.mem_filter.1 h).2
  have h2 := (List.mem_filter.1 hx).2
  rw [h2] at h1
  cases h1

theorem node_exo_or_endo (N : CausalNetwork) (v : Nat)
    (h : v ∈ nodesOf N.edges) :
    v ∈ exogenousVariables N ∨ v ∈ endogenousVariables N := by
  cases hd : (indeg N.edges v == 0) with
  | true => exact Or.inl (List.mem_filter.2 ⟨h, hd⟩)
  | false => exact Or.inr (List.mem_filter.2 ⟨h, by rw [hd]; rfl⟩)

/-- Claim C6 (amended): when the context assigns exactly the exogenous
variables and evaluation succeeds, the result is keyed by exactly the
endogenous variables; an intervened variable receives its pinned value from
the override map; and any other endogenous variable receives `F[V]` applied
to the accumulated partial valuation — which coincides with `F[V]` applied
to the final valuation restricted to `V`'s parents whenever `F[V]` reads only
its parents' values (without that proviso the code passes the whole
accumulated valuation, not the restriction; see the counterexample). -/
theorem c6_evaluate_characterization (N : CausalNetwork)
    (c derived : Assignment) (h : evaluate N c = some derived)
    (hctx : ∀ v, v ∈ keysOf c ↔ v ∈ exogenousVariables N) :
    (∀ v, (derived.lookup v).isSome = true ↔ v ∈ endogenousVariables N) ∧
    (∀ v x, v ∈ endogenousVariables N →
      N.endogenous_bindings.lookup v = some x → derived.lookup v = some x) ∧
    (∀ v f, v ∈ endogenousVariables N →
      N.endogenous_bindings.lookup v = none →
      N.structural_equations.lookup v = some f →
      (∀ g g' : Nat → Option Nat,
        (∀ p ∈ predsOf N v, g p = g' p) → f g = f g') →
      derived.lookup v =
        some (f (restrictLookup (predsOf N v) (dictUnion c derived)))) := by
  have hkeys : ∀ v, v ∈ endogenousVariables N → v ∉ keysOf c := by
    intro v hv hk
    exact endo_not_exo N v hv ((hctx v).1 hk)
  refine ⟨?_, ?_, ?_⟩
  · intro v
    rw [evaluate_keys N c derived h v]
    constructor
    · rintro ⟨hnode, hnc⟩
      rcases node_exo_or_endo N v hnode with hexo | hendo
      · exact absurd ((hctx v).2 hexo) hnc
      · exact hendo
    · intro hendo
      exact ⟨(List.mem_filter.1 hendo).1, hkeys v hendo⟩
  · intro v x hv hb
    exact evaluate_pinned N c derived h v x (List.mem_filter.1 hv).1
      ((lookup_eq_none_iff c v).2 (hkeys v hv)) hb
  · intro v f hv hb hf hdep
    exact evaluate_equation N c derived h v f (List.mem_filter.1 hv).1
      ((lookup_eq_none_iff c v).2 (hkeys v hv)) hb hf hdep

/-- Witness for the amended C6 theorem on a concrete network with an
intervention pinning variable `3` and an equation computing variable `2`. -/
theorem c6_witness :
    ([(2, 0), (3, 7)] : Assignment).lookup 3 = some 7 ∧
    ([(2, 0), (3, 7)] : Assignment).lookup 2 =
      some ((fun g => (g 1).getD 0) (restrictLookup (predsOf (netCintv [(3, 7)]) 2)
        (dictUnion [(1, 0)] [(2, 0), (3, 7)]))) := by
  have h := c6_evaluate_characterization (netCintv [(3, 7)]) [(1, 0)]
    [(2, 0), (3, 7)] rfl (fun v => by
      rw [show keysOf ([(1, 0)] : Assignment) = [1] from rfl,
        show exogenousVariables (netCintv [(3, 7)]) = [1] from rfl])
  refine ⟨h.2.1 3 7 (by decide) rfl, ?_⟩
  exact h.2.2 2 (fun g => (g 1).getD 0) (by decide) rfl rfl
    (fun g g' ha => by
      have h1 := ha 1 (by decide)
      simp only [h1])

/-- Claim C6 (counterexample): in `netD` the equation of variable `3` reads
variable `2`, which is not among its graph parents; `evaluate` applies the
equation to the whole accumulated valuation and yields `1`, whereas the
claimed application of `F[3]` to the valuation restricted to the parents of
`3` yields `0`.  This refutes the claim that every non-intervened endogenous
variable receives `F[V]` applied to the restriction to `V`'s parents. -/
theorem c6_counterexample :
    evaluate netD [(1, 0)] = some [(2, 1), (3, 1)] ∧
    predsOf netD 3 = [1] ∧
    netD.structural_equations.lookup 3 = some (fun g => (g 2).getD 0) ∧
    ([(2, 1), (3, 1)] : Assignment).lookup 3 = some 1 ∧
    ((fun g => (g 2).getD 0) (restrictLookup (predsOf netD 3)
      (dictUnion [(1, 0)] [(2, 1), (3, 1)]))) = 0 ∧
    ([(2, 1), (3, 1)] : Assignment).lookup 3 ≠
      some ((fun g => (g 2).getD 0) (restrictLookup (predsOf netD 3)
        (dictUnion [(1, 0)] [(2, 1), (3, 1)]))) :=
  ⟨rfl, rfl, rfl, rfl, rfl, by decide⟩

/-! Claim C1: actual cause as minimal weak actual cause. -/

theorem ac3Scan_true_iff (cand : Assignment) (e : Event) (S : CausalSetting) :
    ∀ l : List Assignment,
      (∀ sub ∈ l, dictEq sub cand = false →
        is_weak_actual_cause sub e S ≠ none) →
      (ac3Scan cand e S l = some true ↔
        ∀ sub ∈ l, dictEq sub cand = false →
          is_weak_actual_cause sub e S ≠ some true) := by
  intro l
  induction l with
  | nil => intro _; simp [ac3Scan]
  | cons sub rest ih =>
    intro hnoerr
    unfold ac3Scan
    by_cases hd : dictEq sub cand = true
    · rw [if_pos hd]
      rw [ih (fun s hs => hnoerr s (List.mem_cons_of_mem sub hs))]
      constructor
      · intro h s hs hds
        rcases List.mem_cons.1 hs with rfl | hs
        · rw [hd] at hds; cases hds
        · exact h s hs hds
      · intro h s hs hds
        exact h s (List.mem_cons_of_mem sub hs) hds
    · have hdf : dictEq sub cand = false := by
        cases hx : dictEq sub cand
        · rfl
        · exact absurd hx hd
      rw [if_neg hd]
      cases hw : is_weak_actual_cause sub e S with
      | none => exact absurd hw (hnoerr sub (by simp) hdf)
      | some b =>
        cases b
        · rw [ih (fun s hs => hnoerr s (List.mem_cons_of_mem sub hs))]
          constructor
          · intro h s hs hds
            rcases List.mem_cons.1 hs with rfl | hs
            · rw [hw]; simp
            · exact h s hs hds
          · intro h s hs hds
            exact h s (List.mem_cons_of_mem sub hs) hds
        · constructor
          · intro h; cases h
          · intro h
            exact absurd hw (by
              have := h sub (by simp) hdf
              intro hx
              exact this hx)

/-- Claim C1 (amended): provided the weak-actual-cause test returns a Boolean
(rather than propagating an evaluation error) on every sub-assignment of the
candidate, `is_actual_cause` returns true exactly when the candidate is a
weak actual cause (AC1 and AC2) and no strict non-empty sub-assignment of it
is a weak actual cause. -/
theorem c1_actual_cause_minimality (cand : Assignment) (e : Event)
    (S : CausalSetting)
    (hnoerr : ∀ sub, sub.Sublist cand → dictEq sub cand = false →
      is_weak_actual_cause sub e S ≠ none) :
    is_actual_cause cand e S = some true ↔
      (is_weak_actual_cause cand e S = some true ∧
       ∀ sub, sub.Sublist cand → sub ≠ [] → dictEq sub cand = false →
         is_weak_actual_cause sub e S ≠ some true) := by
  unfold is_actual_cause
  cases hw : is_weak_actual_cause cand e S with
  | none =>
    constructor
    · intro h; cases h
    · rintro ⟨h1, _⟩
      cases h1
  | some b =>
    cases b
    · constructor
      · intro h; cases h
      · rintro ⟨h1, _⟩
        cases h1
    · show satisfies_ac3 cand e S = some true ↔ _
      unfold satisfies_ac3 powerdict
      rw [ac3Scan_true_iff cand e S cand.sublists
        (fun s hs => hnoerr s (List.mem_sublists.1 hs))]
      constructor
      · intro h
        refine ⟨rfl, ?_⟩
        intro sub hs _ hds
        exact h sub (List.mem_sublists.2 hs) hds
      · rintro ⟨_, h2⟩ sub hs hds
        by_cases hnil : sub = []
        · subst hnil
          rw [weak_actual_cause_nil]
          simp
        · exact h2 sub (List.mem_sublists.1 hs) hnil hds

/-- Witness for the amended C1 theorem: in the disjunctive forest fire the
pair candidate is an actual cause, derived through the theorem from the facts
that it is a weak actual cause and that no strict non-empty sub-assignment
is one. -/
theorem c1_witness :
    is_actual_cause [(2, 1), (3, 1)] (.prim 4 1) fireSetting = some true := by
  have hall : ∀ s ∈ ([(2, 1), (3, 1)] : Assignment).sublists,
      dictEq s [(2, 1), (3, 1)] = false →
      is_weak_actual_cause s (.prim 4 1) fireSetting ≠ none := by decide
  have hall2 : ∀ s ∈ ([(2, 1), (3, 1)] : Assignment).sublists,
      dictEq s [(2, 1), (3, 1)] = false →
      is_weak_actual_cause s (.prim 4 1) fireSetting ≠ some true := by decide
  exact (c1_actual_cause_minimality [(2, 1), (3, 1)] (.prim 4 1) fireSetting
    (fun sub hs => hall sub (List.mem_sublists.2 hs))).mpr
    ⟨by decide, fun sub hs _ hds => hall2 sub (List.mem_sublists.2 hs) hds⟩

/-- Claim C1 (counterexample): in `setA` the pair candidate is a weak actual
cause and no strict non-empty sub-assignment is one, yet `is_actual_cause`
does not return true: while minimality is being checked, the sub-candidate
`2 = 0` drives the AC2 search through an intervention under which the
equation of variable `3` produces a value outside its declared domain, so
the rebuilt setting's validation raises and the error propagates.  This
refutes the claim as an unconditional iff. -/
theorem c1_counterexample :
    mkSetting netA [(1, 0)] [(1, [0, 1])] [(2, [0, 1]), (3, [1, 3])] =
      some setA ∧
    is_actual_cause [(2, 0), (3, 1)] (.prim 2 0) setA = none ∧
    ¬(is_actual_cause [(2, 0), (3, 1)] (.prim 2 0) setA = some true ↔
      (is_weak_actual_cause [(2, 0), (3, 1)] (.prim 2 0) setA = some true ∧
       ∀ sub, sub.Sublist [(2, 0), (3, 1)] → sub ≠ [] →
         dictEq sub [(2, 0), (3, 1)] = false →
         is_weak_actual_cause sub (.prim 2 0) setA ≠ some true)) := by
  refine ⟨rfl, by decide, ?_⟩
  intro hiff
  have hall : ∀ s ∈ ([(2, 0), (3, 1)] : Assignment).sublists,
      dictEq s [(2, 0), (3, 1)] = false →
      is_weak_actual_cause s (.prim 2 0) setA ≠ some true := by decide
  have h := hiff.mpr ⟨by decide,
    fun sub hs _ hds => hall sub (List.mem_sublists.2 hs) hds⟩
  have hnone : is_actual_cause [(2, 0), (3, 1)] (.prim 2 0) setA = none := by
    decide
  rw [hnone] at h
  cases h

/-! Claim C2: the AC2 witness search. -/

theorem scanWitnesses_true_iff (e : Event) (S : CausalSetting) :
    ∀ l : List Assignment,
      (∀ itv ∈ l, entailsFormula itv (.neg e) S ≠ none) →
      (scanWitnesses e S l = some true ↔
        ∃ itv ∈ l, entailsFormula itv (.neg e) S = some true) := by
  intro l
  induction l with
  | nil => intro _; simp [scanWitnesses]
  | cons itv0 rest ih =>
    intro hnoerr
    unfold scanWitnesses
    cases hc : entailsFormula itv0 (.neg e) S with
    | none => exact absurd hc (hnoerr itv0 (by simp))
    | some b =>
      cases b
      · rw [ih (fun i hi => hnoerr i (List.mem_cons_of_mem itv0 hi))]
        constructor
        · rintro ⟨i, hi, hit⟩
          exact ⟨i, List.mem_cons_of_mem itv0 hi, hit⟩
        · rintro ⟨i, hi, hit⟩
          rcases List.mem_cons.1 hi with rfl | hi
          · rw [hc] at hit; cases hit
          · exact ⟨i, hi, hit⟩
      · constructor
        · intro _
          exact ⟨itv0, by simp, hc⟩
        · intro _
          rfl

theorem lookup_eq_of_mem_nodup {β : Type} :
    ∀ (l : List (Nat × β)) (k : Nat) (y : β),
      (k, y) ∈ l → (keysOf l).Nodup → l.lookup k = some y := by
  intro l
  induction l with
  | nil => intro k y h; cases h
  | cons p rest ih =>
    intro k y h hnd
    obtain ⟨k', y'⟩ := p
    rcases List.mem_cons.1 h with heq | hmem
    · cases heq
      exact lookup_cons_self k y rest
    · have hk : k ≠ k' := by
        intro hkk
        subst hkk
        have : k ∈ keysOf rest :=
          List.mem_map.2 ⟨(k, y), hmem, rfl⟩
        exact (List.nodup_cons.1 hnd).1 this
      rw [lookup_cons_ne y' rest hk]
      exact ih k y hmem (List.nodup_cons.1 hnd).2

theorem forall2_comp {P : Nat → List Nat → Prop} :
    ∀ (ks : List Nat) (doms : List (List Nat)) (tup : List Nat),
      List.Forall₂ P ks doms → List.Forall₂ (fun y d => y ∈ d) tup doms →
      List.Forall₂ (fun k y => ∃ d, P k d ∧ y ∈ d) ks tup := by
  intro ks doms tup h1
  induction h1 generalizing tup with
  | nil =>
    intro h2
    cases h2
    exact List.Forall₂.nil
  | @cons k d ks' doms' hkd _ ih =>
    intro h2
    cases h2 with
    | cons hy hrest =>
      exact List.Forall₂.cons ⟨d, hkd, hy⟩ (ih _ hrest)

theorem forall2_map_left {P : Nat → List Nat → Prop} (g : Nat → Nat) :
    ∀ (ks : List Nat) (doms : List (List Nat)),
      List.Forall₂ P ks doms → (∀ k d, P k d → g k ∈ d) →
      List.Forall₂ (fun y d => y ∈ d) (ks.map g) doms := by
  intro ks doms h
  induction h with
  | nil => intro _; exact List.Forall₂.nil
  | cons hkd _ ih =>
    intro hg
    exact List.Forall₂.cons (hg _ _ hkd) (ih hg)

theorem keysOf_map_graph (l : List Nat) (g : Nat → Nat) :
    keysOf (l.map (fun k => (k, g k))) = l := by
  unfold keysOf
  rw [List.map_map]
  exact List.map_id' l

theorem doms_entry_inv (S : CausalSetting) (x : Assignment) (k : Nat)
    (dd : List Nat)
    (h : (match S.endogenous_domains.lookup k, x.lookup k with
      | some d, some xv => some (d.filter (fun y => !(y == xv)))
      | _, _ => none) = some dd) :
    ∃ dfull xv, S.endogenous_domains.lookup k = some dfull ∧
      x.lookup k = some xv ∧ dd = dfull.filter (fun y => !(y == xv)) := by
  cases hd : S.endogenous_domains.lookup k with
  | none => rw [hd] at h; cases h
  | some dfull =>
    cases hx : x.lookup k with
    | none => rw [hd, hx] at h; cases h
    | some xv =>
      rw [hd, hx] at h
      exact ⟨dfull, xv, rfl, rfl, (Option.some_inj.1 h).symm⟩

theorem dictUnion_lookup_congr (a1 a2 b1 b2 : Assignment)
    (ha : ∀ k, a1.lookup k = a2.lookup k)
    (hb : ∀ k, b1.lookup k = b2.lookup k) :
    ∀ k, (dictUnion a1 b1).lookup k = (dictUnion a2 b2).lookup k := by
  intro k
  rw [dictUnion_lookup, dictUnion_lookup, ha k, hb k]

theorem lookup_mem {β : Type} :
    ∀ (l : List (Nat × β)) (k : Nat) (y : β),
      l.lookup k = some y → (k, y) ∈ l := by
  intro l
  induction l with
  | nil => intro k y h; cases h
  | cons p rest ih =>
    intro k y h
    obtain ⟨k', v⟩ := p
    by_cases hk : k = k'
    · subst hk
      rw [lookup_cons_self] at h
      cases h
      exact List.mem_cons_self _ _
    · rw [lookup_cons_ne v rest hk] at h
      exact List.mem_cons_of_mem _ (ih k y h)

/-- Claim C2 (amended): provided the witness space builds without a KeyError
and no tried intervention raises, `satisfies_ac2` returns true exactly when
there exist an alternative assignment `xp` over the candidate's variables
with each value drawn from the endogenous domain minus the *factual* value
`S.values[V]` (not minus the candidate's own value `X[V]`), and a subset `K`
of the endogenous variables outside the candidate, such that the causal
formula `[xp ∪ w] ¬e` holds in `S`, where `w` is the factual valuation
restricted to `K`. -/
theorem c2_ac2_characterization (cand : Assignment) (e : Event)
    (S : CausalSetting) (l : List Assignment)
    (hne : cand ≠ [])
    (hnd : (keysOf S.endogenous_domains).Nodup)
    (hl : ac2WitnessSpace cand S = some l)
    (hnoerr : ∀ itv ∈ l, entailsFormula itv (.neg e) S ≠ none) :
    satisfies_ac2 cand e S = some true ↔
      ∃ (xp : Assignment) (K : List Nat),
        ac2WitnessSide S.values cand xp K S = true ∧
        entailsFormula
          (dictUnion xp (S.values.filter (fun p => K.contains p.1)))
          (.neg e) S = some true := by
  have hl0 := hl
  unfold ac2WitnessSpace at hl
  cases hx : mapMO (fun k => (S.values.lookup k).map (fun v => (k, v)))
      (keysOf cand) with
  | none => rw [hx] at hl; cases hl
  | some x =>
  rw [hx] at hl
  have hl2 : (match mapMO (fun k => (S.values.lookup k).map (fun v => (k, v)))
      ((keysOf S.endogenous_domains).filter
        (fun k => !(keysOf cand).contains k)) with
    | none => none
    | some all_w =>
      match mapMO (fun k =>
          match S.endogenous_domains.lookup k, x.lookup k with
          | some d, some xv => some (d.filter (fun y => !(y == xv)))
          | _, _ => none) (sortedKeys cand) with
      | none => none
      | some doms =>
        some ((cartesianProduct doms).flatMap
          (fun tup => (powerdict all_w).map
            (fun w => dictUnion ((sortedKeys cand).zip tup) w)))) =
      some l := hl
  cases haw : mapMO (fun k => (S.values.lookup k).map (fun v => (k, v)))
      ((keysOf S.endogenous_domains).filter
        (fun k => !(keysOf cand).contains k)) with
  | none => rw [haw] at hl2; cases hl2
  | some all_w =>
  rw [haw] at hl2
  have hl3 : (match mapMO (fun k =>
      match S.endogenous_domains.lookup k, x.lookup k with
      | some d, some xv => some (d.filter (fun y => !(y == xv)))
      | _, _ => none) (sortedKeys cand) with
    | none => none
    | some doms =>
      some ((cartesianProduct doms).flatMap
        (fun tup => (powerdict all_w).map
          (fun w => dictUnion ((sortedKeys cand).zip tup) w)))) =
      some l := hl2
  cases hdm : mapMO (fun k =>
      match S.endogenous_domains.lookup k, x.lookup k with
      | some d, some xv => some (d.filter (fun y => !(y == xv)))
      | _, _ => none) (sortedKeys cand) with
  | none => rw [hdm] at hl3; cases hl3
  | some doms =>
  rw [hdm] at hl3
  have hldef : l = (cartesianProduct doms).flatMap
      (fun tup => (powerdict all_w).map
        (fun w => dictUnion ((sortedKeys cand).zip tup) w)) :=
    (Option.some_inj.1 hl3).symm
  obtain ⟨hxsome, hxeq⟩ := mapMO_graph_eq S.values (keysOf cand) x hx
  obtain ⟨hwsome, hweq⟩ := mapMO_graph_eq S.values _ all_w haw
  have hdoms := mapMO_eq_some_forall2 _ _ _ hdm
  have hkmem : ∀ k, k ∈ sortedKeys cand ↔ k ∈ keysOf cand := fun k =>
    (List.perm_insertionSort (fun a b => a ≤ b) (keysOf cand)).mem_iff
  have hallWkeys : keysOf all_w = (keysOf S.endogenous_domains).filter
      (fun k => !(keysOf cand).contains k) := by
    rw [hweq, keysOf_map_graph]
  have hallWnodup : (keysOf all_w).Nodup := by
    rw [hallWkeys]
    exact hnd.filter _
  have hxlook : ∀ k, x.lookup k =
      if k ∈ keysOf cand then S.values.lookup k else none := by
    intro k
    rw [hxeq, lookup_map_graph]
    by_cases hk : k ∈ keysOf cand
    · rw [if_pos hk, if_pos hk]
      obtain ⟨y, hy⟩ := Option.isSome_iff_exists.1 (hxsome k hk)
      rw [hy]
      rfl
    · rw [if_neg hk, if_neg hk]
  have hwlook : ∀ k, all_w.lookup k =
      if k ∈ keysOf all_w then S.values.lookup k else none := by
    intro k
    rw [hweq, lookup_map_graph, keysOf_map_graph]
    by_cases hk : k ∈ (keysOf S.endogenous_domains).filter
        (fun k => !(keysOf cand).contains k)
    · rw [if_pos hk, if_pos hk]
      obtain ⟨y, hy⟩ := Option.isSome_iff_exists.1 (hwsome k hk)
      rw [hy]
      rfl
    · rw [if_neg hk, if_neg hk]
  have hempty : cand.isEmpty = false := by
    cases cand
    · exact absurd rfl hne
    · rfl
  have hgoal : satisfies_ac2 cand e S = scanWitnesses e S l := by
    unfold satisfies_ac2
    rw [if_neg (by rw [hempty]; simp), hl0]
  rw [hgoal, scanWitnesses_true_iff e S l hnoerr]
  have hlmem : ∀ itv, itv ∈ l ↔ ∃ tup ∈ cartesianProduct doms,
      ∃ w ∈ all_w.sublists,
        itv = dictUnion ((sortedKeys cand).zip tup) w := by
    intro itv
    rw [hldef]
    unfold powerdict
    simp only [List.mem_flatMap, List.mem_map]
    constructor
    · rintro ⟨tup, ht, w, hw2, rfl⟩
      exact ⟨tup, ht, w, hw2, rfl⟩
    · rintro ⟨tup, ht, w, hw2, rfl⟩
      exact ⟨tup, ht, w, hw2, rfl⟩
  constructor
  · rintro ⟨itv, hmem, htrue⟩
    obtain ⟨tup, htup, w, hwmem, rfl⟩ := (hlmem itv).1 hmem
    have hws : w.Sublist all_w := List.mem_sublists.1 hwmem
    have hwknodup : (keysOf w).Nodup :=
      List.Nodup.sublist (hws.map Prod.fst) hallWnodup
    have htupf : List.Forall₂ (fun y d => y ∈ d) tup doms :=
      (cartesianProduct_mem doms tup).1 htup
    have hlen : (sortedKeys cand).length ≤ tup.length := by
      rw [List.Forall₂.length_eq hdoms, ← List.Forall₂.length_eq htupf]
    have hkeq : keysOf ((sortedKeys cand).zip tup) = sortedKeys cand :=
      List.map_fst_zip _ _ hlen
    have hcomb := forall2_comp (sortedKeys cand) doms tup hdoms htupf
    refine ⟨(sortedKeys cand).zip tup, keysOf w, ?_, ?_⟩
    · unfold ac2WitnessSide
      rw [Bool.and_eq_true, Bool.and_eq_true]
      refine ⟨⟨?_, ?_⟩, ?_⟩
      · apply (setEq_true_iff _ _).2
        intro k
        rw [hkeq]
        exact hkmem k
      · apply List.all_eq_true.2
        intro k hk
        rw [hkeq] at hk
        have hkz : k ∈ keysOf ((sortedKeys cand).zip tup) := by rw [hkeq]; exact hk
        obtain ⟨y, hy⟩ := Option.isSome_iff_exists.1
          ((lookup_isSome_iff _ k).2 hkz)
        obtain ⟨d, hdP, hyd⟩ := forall2_zip_lookup _ _ hcomb k y hy
        obtain ⟨dfull, xv, hdf, hxv, rfl⟩ := doms_entry_inv S x k d hdP
        rw [hdf, hy]
        have hyd2 := List.mem_filter.1 hyd
        have hvk : S.values.lookup k = some xv := by
          rw [hxlook k, if_pos ((hkmem k).1 hk)] at hxv
          exact hxv
        have hyx : y ≠ xv := by
          intro hyx
          rw [hyx] at hyd2
          simp at hyd2
        show (dfull.contains y && !(S.values.lookup k == some y)) = true
        rw [Bool.and_eq_true]
        refine ⟨List.elem_iff.2 hyd2.1, ?_⟩
        rw [hvk]
        simp [Ne.symm hyx]
      · apply List.all_eq_true.2
        intro k hk
        have hkaw : k ∈ keysOf all_w := (hws.map Prod.fst).subset hk
        rw [hallWkeys] at hkaw
        have hkf := List.mem_filter.1 hkaw
        rw [Bool.and_eq_true]
        exact ⟨List.elem_iff.2 hkf.1, hkf.2⟩
    · have hinner : ∀ k, w.lookup k =
          (S.values.filter (fun p => (keysOf w).contains p.1)).lookup k := by
        intro k
        rw [lookup_filter_key S.values (fun q => (keysOf w).contains q) k]
        by_cases hkw : k ∈ keysOf w
        · rw [if_pos (List.elem_iff.2 hkw)]
          obtain ⟨y, hy⟩ := Option.isSome_iff_exists.1
            ((lookup_isSome_iff w k).2 hkw)
          have hmem2 : (k, y) ∈ all_w := hws.subset (lookup_mem w k y hy)
          have hkaw : k ∈ keysOf all_w := List.mem_map.2 ⟨(k, y), hmem2, rfl⟩
          have hlook2 : all_w.lookup k = some y :=
            lookup_eq_of_mem_nodup all_w k y hmem2 hallWnodup
          rw [hwlook k, if_pos hkaw] at hlook2
          rw [hy, hlook2]
        · rw [if_neg (by
            cases hcc : (keysOf w).contains k
            · simp
            · exact absurd (List.elem_iff.1 hcc) hkw)]
          exact (lookup_eq_none_iff w k).2 hkw
      rw [← entailsFormula_congr S (dictUnion ((sortedKeys cand).zip tup) w)
        (dictUnion ((sortedKeys cand).zip tup)
          (S.values.filter (fun p => (keysOf w).contains p.1)))
        (dictUnion_lookup_congr _ _ _ _ (fun k => rfl) hinner) (.neg e)]
      exact htrue
  · rintro ⟨xp, K, hside, htrue⟩
    unfold ac2WitnessSide at hside
    rw [Bool.and_eq_true, Bool.and_eq_true] at hside
    obtain ⟨⟨hA, hB⟩, hC⟩ := hside
    have hAmem := (setEq_true_iff _ _).1 hA
    have htup : (sortedKeys cand).map (fun k => (xp.lookup k).getD 0) ∈
        cartesianProduct doms := by
      rw [cartesianProduct_mem]
      apply forall2_map_left _ _ _ hdoms
      intro k d hP
      obtain ⟨dfull, xv, hdf, hxv, rfl⟩ := doms_entry_inv S x k d hP
      have hkc : k ∈ keysOf cand := by
        by_contra hkc
        rw [hxlook k, if_neg hkc] at hxv
        cases hxv
      have hkxp : k ∈ keysOf xp := (hAmem k).2 hkc
      obtain ⟨y, hy⟩ := Option.isSome_iff_exists.1
        ((lookup_isSome_iff xp k).2 hkxp)
      have hBk := List.all_eq_true.1 hB k hkxp
      rw [hdf, hy] at hBk
      have hBk2 : (dfull.contains y && !(S.values.lookup k == some y)) =
          true := hBk
      rw [Bool.and_eq_true] at hBk2
      have hvk : S.values.lookup k = some xv := by
        rw [hxlook k, if_pos hkc] at hxv
        exact hxv
      have hyx : y ≠ xv := by
        intro hyx
        rw [hvk, hyx] at hBk2
        simp at hBk2
      rw [hy]
      show y ∈ dfull.filter (fun z => !(z == xv))
      apply List.mem_filter.2
      exact ⟨List.elem_iff.1 hBk2.1, by simp [hyx]⟩
    have hwmem : all_w.filter (fun p => K.contains p.1) ∈ all_w.sublists :=
      List.mem_sublists.2 (List.filter_sublist all_w)
    refine ⟨dictUnion ((sortedKeys cand).zip
        ((sortedKeys cand).map (fun k => (xp.lookup k).getD 0)))
        (all_w.filter (fun p => K.contains p.1)),
      (hlmem _).2 ⟨_, htup, _, hwmem, rfl⟩, ?_⟩
    have hleft : ∀ k, ((sortedKeys cand).zip
        ((sortedKeys cand).map (fun k => (xp.lookup k).getD 0))).lookup k =
        xp.lookup k := by
      intro k
      rw [zip_map_self, lookup_map_graph]
      by_cases hk : k ∈ sortedKeys cand
      · rw [if_pos hk]
        have hkxp : k ∈ keysOf xp := (hAmem k).2 ((hkmem k).1 hk)
        obtain ⟨y, hy⟩ := Option.isSome_iff_exists.1
          ((lookup_isSome_iff xp k).2 hkxp)
        rw [hy]
        rfl
      · rw [if_neg hk]
        have hkxp : k ∉ keysOf xp := fun hc =>
          hk ((hkmem k).2 ((hAmem k).1 hc))
        exact ((lookup_eq_none_iff xp k).2 hkxp).symm
    have hright : ∀ k, (all_w.filter (fun p => K.contains p.1)).lookup k =
        (S.values.filter (fun p => K.contains p.1)).lookup k := by
      intro k
      rw [lookup_filter_key all_w (fun q => K.contains q) k,
        lookup_filter_key S.values (fun q => K.contains q) k]
      by_cases hk : (K.contains k) = true
      · rw [if_pos hk, if_pos hk]
        have hkK : k ∈ K := List.elem_iff.1 hk
        have hCk := List.all_eq_true.1 hC k hkK
        rw [Bool.and_eq_true] at hCk
        have hkaw : k ∈ keysOf all_w := by
          rw [hallWkeys]
          exact List.mem_filter.2 ⟨List.elem_iff.1 hCk.1, hCk.2⟩
        rw [hwlook k, if_pos hkaw]
      · rw [if_neg hk, if_neg hk]
    rw [entailsFormula_congr S _ _
      (dictUnion_lookup_congr _ _ _ _ hleft hright) (.neg e)]
    exact htrue

/-- Witness for the amended C2 theorem: in the disjunctive forest fire, AC2
holds for the pair candidate and the theorem produces a concrete witness
pair. -/
theorem c2_witness :
    ∃ (xp : Assignment) (K : List Nat),
      ac2WitnessSide fireSetting.values [(2, 1), (3, 1)] xp K fireSetting =
        true ∧
      entailsFormula
        (dictUnion xp (fireSetting.values.filter (fun p => K.contains p.1)))
        (.neg (.prim 4 1)) fireSetting = some true :=
  (c2_ac2_characterization [(2, 1), (3, 1)] (.prim 4 1) fireSetting
    ((ac2WitnessSpace [(2, 1), (3, 1)] fireSetting).getD [])
    (by decide) (by decide) rfl (by decide)).mp (by decide)

/-- Claim C2 (counterexample): with the non-factual candidate `2 = 0` over
the domain `{0, 1, 2}` (the factual value being `1`) and the event
`¬(2 = 1)`, the code's AC2 search returns false — it only tries alternatives
drawn from the domain minus the *factual* value — while the claim's witness
condition, which excludes the candidate's own value `X[V]`, is satisfiable
(take `xp = {2 = 1}`, `K = ∅`).  This refutes the claim as stated. -/
theorem c2_counterexample :
    mkSetting netB [(1, 0)] [(1, [0])] [(2, [0, 1, 2])] = some setB ∧
    satisfies_ac2 [(2, 0)] (.neg (.prim 2 1)) setB = some false ∧
    (∃ (xp : Assignment) (K : List Nat),
      ac2WitnessSide [(2, 0)] [(2, 0)] xp K setB = true ∧
      entailsFormula
        (dictUnion xp (setB.values.filter (fun p => K.contains p.1)))
        (.neg (.neg (.prim 2 1))) setB = some true) ∧
    ¬(satisfies_ac2 [(2, 0)] (.neg (.prim 2 1)) setB = some true ↔
      ∃ (xp : Assignment) (K : List Nat),
        ac2WitnessSide [(2, 0)] [(2, 0)] xp K setB = true ∧
        entailsFormula
          (dictUnion xp (setB.values.filter (fun p => K.contains p.1)))
          (.neg (.neg (.prim 2 1))) setB = some true) := by
  have hex : ∃ (xp : Assignment) (K : List Nat),
      ac2WitnessSide [(2, 0)] [(2, 0)] xp K setB = true ∧
      entailsFormula
        (dictUnion xp (setB.values.filter (fun p => K.contains p.1)))
        (.neg (.neg (.prim 2 1))) setB = some true :=
    ⟨[(2, 1)], [], by decide, by decide⟩
  refine ⟨rfl, by decide, hex, ?_⟩
  intro hiff
  have h := hiff.mpr hex
  have hf : satisfies_ac2 [(2, 0)] (.neg (.prim 2 1)) setB = some false := by
    decide
  rw [hf] at h
  cases h

end HalpernPearl
